import Mathlib

/-!
Verification development for the NP-chunking feature pipeline:
the corpus reader / feature extractor / feature serializer of
`build_features.py`, the BIO consistency checker of
`analyze_bio_violations.py`, and the error-analysis pass of
`error_analysis.py`.

Strings from the Python source are modelled as Lean `String`s, and all
character-level processing is done on the underlying `List Char`
(`String.data`), with character classes over the ASCII ranges (the corpus
is ASCII WSJ text).  Machine-level details such as UTF-8 byte positions
are irrelevant to the properties checked here.
-/

namespace NgTagger

/-- The apostrophe character (ASCII 39). -/
def apos : Char := Char.ofNat 39

/-- Models Python's `s.split(sep)` for a one-character separator:
splitting the empty string yields `[""]`, and adjacent separators yield
empty fields. -/
def splitCharsOn (sep : Char) : List Char → List Char → List (List Char)
  | [], acc => [acc.reverse]
  | c :: rest, acc =>
    if c = sep then acc.reverse :: splitCharsOn sep rest []
    else splitCharsOn sep rest (c :: acc)

/-- `line.split('\t')` from the source. -/
def splitTab (s : String) : List String :=
  (splitCharsOn '\t' s.data []).map (fun l => (⟨l⟩ : String))

/-- `s.split('-')` from the source. -/
def splitDash (s : String) : List String :=
  (splitCharsOn '-' s.data []).map (fun l => (⟨l⟩ : String))

/-- Models Python's `str.lower()` (ASCII). -/
def lowerStr (s : String) : String := ⟨s.data.map Char.toLower⟩

/-- Models Python's `str.upper()` (ASCII), applied to a char list. -/
def upperChars (l : List Char) : List Char := l.map Char.toUpper

/-- Models Python's `str.strip()`: drop leading and trailing whitespace. -/
def stripStr (s : String) : String :=
  ⟨((s.data.dropWhile Char.isWhitespace).reverse.dropWhile Char.isWhitespace).reverse⟩

/-- Models Python's `"\t".join(fields)`. -/
def joinTab : List String → String
  | [] => ""
  | [x] => x
  | x :: y :: rest => x ++ "\t" ++ joinTab (y :: rest)

/-- Models Python's `s.startswith(p)`. -/
def startsW (s p : String) : Bool := p.data.isPrefixOf s.data

/-- An `f"name={value}"` feature string from `token_feats`. -/
def mkFeat (n v : String) : String := n ++ "=" ++ v

/-- The `'true' if b else 'false'` idiom of the source. -/
def boolStr (b : Bool) : String := if b then "true" else "false"

/-! ### Tokens (`build_features.read_wsj` data model) -/

/-- A `(w, pos, bio|None)` triple produced by `read_wsj`. -/
structure Tok where
  w : String
  pos : String
  bio : Option String
deriving DecidableEq, Repr

/-- Placeholder token used for (always in-range) list lookups. -/
def defaultTok : Tok := ⟨"", "", none⟩

/-! ### Lexical analyzers (`build_features.py` lines 39-103) -/

/-- `DET_WORDS` from the source. -/
def DET_WORDS : List String := ["the", "a", "an", "this", "that", "these", "those"]

/-- `PREP_WORDS` from the source. -/
def PREP_WORDS : List String :=
  ["of", "in", "on", "at", "for", "with", "by", "to", "from", "as", "into", "over", "under"]

/-- `has_digit`: the regex `\d` search — some character is a digit. -/
def has_digit (w : String) : Bool := w.data.any Char.isDigit

/-- `is_punct`: the anchored regex `^[^\w\s]+$` — non-empty, and every
character is outside `\w` (alphanumeric or underscore) and outside `\s`
(whitespace).  Token strings have no trailing newline (the reader strips
it), so the `$`-before-final-newline corner of Python's `re` is moot. -/
def is_punct (w : String) : Bool :=
  !w.data.isEmpty &&
    w.data.all (fun c => !(c.isAlphanum || c == '_') && !c.isWhitespace)

/-- After the optional fractional part `(?:\.\d+)?`, the match must reach
the end of the string (`$`). -/
def fracEnd : List Char → Bool
  | [] => true
  | '.' :: rest => !rest.isEmpty && rest.all Char.isDigit
  | _ => false

/-- One-or-more `,\d{3}` groups followed by `fracEnd`, with fuel (each
group consumes at least four characters, so `cs.length` fuel suffices). -/
def munchGroups : Nat → List Char → Bool
  | 0, _ => false
  | n + 1, cs =>
    match cs with
    | ',' :: rest =>
      let ds := rest.takeWhile Char.isDigit
      let r := rest.dropWhile Char.isDigit
      ds.length = 3 &&
        (match r with
         | ',' :: _ => munchGroups n r
         | _ => fracEnd r)
    | _ => false

/-- `is_number`: the regex `^[\+\-]?(?:\d{1,3}(?:,\d{3})+|\d+)(?:\.\d+)?$`.
The integer part is either comma-grouped (1-3 leading digits then
`,ddd` groups) or a plain digit run. -/
def is_number (w : String) : Bool :=
  let cs :=
    match w.data with
    | c :: rest => if c = '+' || c = '-' then rest else w.data
    | [] => w.data
  let ds := cs.takeWhile Char.isDigit
  let r := cs.dropWhile Char.isDigit
  (!ds.isEmpty && fracEnd r) ||
    (1 ≤ ds.length && ds.length ≤ 3 && munchGroups r.length r)

/-- The per-character class of `word_shape`: `X`/`x`/`d` for
upper/lower/digit, the literal character for `-`, `'`, `/`, and `_`
otherwise. -/
def shapeClass (c : Char) : Char :=
  if c.isUpper then 'X'
  else if c.isLower then 'x'
  else if c.isDigit then 'd'
  else if c = '-' || c = apos || c = '/' then c
  else '_'

/-- The loop of `word_shape`, carrying the `prev` symbol: a character
whose class symbol is `X`, `x` or `d` and equals `prev` is skipped
(run compression); every other character emits its class symbol. -/
def wordShapeAux : List Char → Option Char → List Char
  | [], _ => []
  | ch :: rest, prev =>
    let cur := shapeClass ch
    if (cur = 'X' ∨ cur = 'x' ∨ cur = 'd') ∧ prev = some cur then
      wordShapeAux rest prev
    else
      cur :: wordShapeAux rest (some cur)

/-- `word_shape` from the source. -/
def word_shape (w : String) : String := ⟨wordShapeAux w.data none⟩

/-- `pre(w, n)`: first `n` characters of the lowercased form. -/
def pre (w : String) (n : Nat) : String :=
  let wl := lowerStr w
  if n ≤ wl.data.length then ⟨wl.data.take n⟩ else wl

/-- `suf(w, n)`: last `n` characters of the lowercased form. -/
def suf (w : String) (n : Nat) : String :=
  let wl := lowerStr w
  if n ≤ wl.data.length then ⟨wl.data.drop (wl.data.length - n)⟩ else wl

/-- `coarse_pos` from the source. -/
def coarse_pos (pos : String) : String :=
  if startsW pos "NN" then "N"
  else if startsW pos "JJ" then "J"
  else if startsW pos "RB" then "R"
  else if startsW pos "VB" then "V"
  else if pos = "DT" then "DT"
  else if pos = "PRP" ∨ pos = "PRP$" then "PRP"
  else if pos = "IN" then "IN"
  else if pos = "CD" then "CD"
  else if pos = "CC" then "CC"
  else if pos = "TO" then "TO"
  else if pos = "POS" then "POS"
  else if startsW pos "W" then "W"
  else if pos ∈ [",", ".", ":", ";", "-LRB-", "-RRB-", "``", "''"] then "PUNCT"
  else pos

/-- `safe_tok(sent, i)`: `sent[i]` when `0 <= i < len(sent)`, else `None`.
The index is an integer, so negative offsets near the sentence start
yield `None` rather than Python's wrap-around indexing. -/
def safe_tok (sent : List Tok) (i : Int) : Option Tok :=
  if 0 ≤ i ∧ i < (sent.length : Int) then some (sent.getD i.toNat defaultTok) else none

/-- `nouny` from the source. -/
def nouny (pos : String) : Bool :=
  startsW pos "NN" || pos ∈ ["PRP", "PRP$", "CD"]

/-! ### Feature extraction (`token_feats`, `build_features.py` lines 107-303)

The extractor destructures tokens as `w, pos, _ = ...` / `p1[0]`, `p1[1]`
and never reads the third (gold BIO) component, so context views carry
only the `(word, pos)` pair. -/

/-- The `(word, pos)` view of a token (the only components `token_feats`
reads). -/
def viewWP (u : Tok) : String × String := (u.w, u.pos)

/-- Surface form of token `i` (`w, pos, _ = sent[i]`). -/
def wv (sent : List Tok) (i : Nat) : String := (sent.getD i defaultTok).w

/-- POS tag of token `i`. -/
def posv (sent : List Tok) (i : Nat) : String := (sent.getD i defaultTok).pos

/-- `wl = w.lower()`. -/
def wlv (sent : List Tok) (i : Nat) : String := lowerStr (wv sent i)

/-- `p2 = safe_tok(sent, i-2)` as a `(word, pos)` view. -/
def p2v (sent : List Tok) (i : Nat) : Option (String × String) :=
  (safe_tok sent ((i : Int) - 2)).map viewWP

/-- `p1 = safe_tok(sent, i-1)` as a `(word, pos)` view. -/
def p1v (sent : List Tok) (i : Nat) : Option (String × String) :=
  (safe_tok sent ((i : Int) - 1)).map viewWP

/-- `n1 = safe_tok(sent, i+1)` as a `(word, pos)` view. -/
def n1v (sent : List Tok) (i : Nat) : Option (String × String) :=
  (safe_tok sent ((i : Int) + 1)).map viewWP

/-- `n2 = safe_tok(sent, i+2)` as a `(word, pos)` view. -/
def n2v (sent : List Tok) (i : Nat) : Option (String × String) :=
  (safe_tok sent ((i : Int) + 2)).map viewWP

/-- The quantifier scan: `for j in range(max(0, i-3), i)` looking for a
`CD`/`DT`/`PRP$` tag (source lines 220-224). -/
def quantScan (sent : List Tok) (i : Nat) : Bool :=
  (List.range' (i - 3) (i - (i - 3))).any
    (fun j => (sent.getD j defaultTok).pos ∈ ["CD", "DT", "PRP$"])

/-- The comma scan of CC_F2: `for j in range(max(0, i-5), i)` looking for
a `,` token (source lines 238-242). -/
def commaScan (sent : List Tok) (i : Nat) : Bool :=
  (List.range' (i - 5) (i - (i - 5))).any
    (fun j => (sent.getD j defaultTok).w = ",")

/-- The NNP window count of NEW_F4: NNP tags at `j ≠ i` for
`j in range(max(0, i-3), min(len(sent), i+4))` (source lines 272-276). -/
def nnpWindowCount (sent : List Tok) (i : Nat) : Nat :=
  ((List.range' (i - 3) (min sent.length (i + 4) - (i - 3))).filter
    (fun j => j ≠ i ∧ (sent.getD j defaultTok).pos = "NNP")).length

/-- The 14 unconditional identity features (source lines 111-126). -/
def baseFeats (w pos wl : String) : List String :=
  [ mkFeat "w" w,
    mkFeat "wl" wl,
    mkFeat "pos" pos,
    mkFeat "cpos" (coarse_pos pos),
    mkFeat "shape" (word_shape w),
    mkFeat "suf2" (suf w 2),
    mkFeat "suf3" (suf w 3),
    mkFeat "isTitle" (boolStr
      ((w.data.head?.map Char.isUpper).getD false &&
        !((lowerStr w).data.drop 1 == upperChars ((lowerStr w).data.drop 1)))),
    mkFeat "isAllCaps" (boolStr
      ((w.data.any Char.isAlpha && w.data.all (fun c => !c.isLower)) &&
        w.data.any Char.isAlpha)),
    mkFeat "hasHyphen" (boolStr (w.data.contains '-')),
    mkFeat "hasDigit" (boolStr (has_digit w)),
    mkFeat "isNumber" (boolStr (is_number w)),
    mkFeat "isDet" (boolStr (wl ∈ DET_WORDS)),
    mkFeat "isPrep" (boolStr (wl ∈ PREP_WORDS)) ]

/-- BOS/EOS boundary markers at distance 1 and 2 (source lines 134-138). -/
def boundaryFeats (p1 p2 n1 n2 : Option (String × String)) : List String :=
  (if p1 = none then ["BOS"] else []) ++
  (if p2 = none then ["BOS2"] else []) ++
  (if n1 = none then ["EOS"] else []) ++
  (if n2 = none then ["EOS2"] else [])

/-- NEW_F2 quotation-boundary features (source lines 140-146). -/
def quoteFeats (pos : String) (p1 n1 : Option (String × String)) : List String :=
  (match p1 with
   | some (pw, _) => if pw ∈ ["``", "\"", "`"] then ["after_open_quote"] else []
   | none => []) ++
  (match n1 with
   | some (_, npos) =>
     if pos ∈ ["``", "\"", "`"] ∧ startsW npos "NN" then ["quote_before_nn"] else []
   | none => [])

/-- Neighbor identity features at ±1 (source lines 148-159). -/
def neighborFeats (p1 n1 : Option (String × String)) : List String :=
  (match p1 with
   | some (pw, ppos) =>
     [mkFeat "p1w" pw, mkFeat "p1wl" (lowerStr pw),
      mkFeat "p1pos" ppos, mkFeat "p1cpos" (coarse_pos ppos)]
   | none => []) ++
  (match n1 with
   | some (nw, npos) =>
     [mkFeat "n1w" nw, mkFeat "n1pos" npos, mkFeat "n1cpos" (coarse_pos npos)]
   | none => [])

/-- POS window features at ±2 (source lines 161-169). -/
def windowFeats (p2 n2 : Option (String × String)) : List String :=
  (match p2 with
   | some (_, p2pos) => [mkFeat "p2pos" p2pos, mkFeat "p2cpos" (coarse_pos p2pos)]
   | none => []) ++
  (match n2 with
   | some (_, n2pos) => [mkFeat "n2pos" n2pos]
   | none => [])

/-- POS n-gram features (source lines 171-183). -/
def ngramFeats (pos : String) (p1 p2 n1 n2 : Option (String × String)) : List String :=
  (match p1 with
   | some (_, pp) => [mkFeat "p1pos+pos" (pp ++ "+" ++ pos)]
   | none => []) ++
  (match n1 with
   | some (_, np) => [mkFeat "pos+n1pos" (pos ++ "+" ++ np)]
   | none => []) ++
  (match p1, n1 with
   | some (_, pp), some (_, np) =>
     [mkFeat "p1pos+pos+n1pos" (pp ++ "+" ++ pos ++ "+" ++ np)]
   | _, _ => []) ++
  (match p2, p1 with
   | some (_, p2p), some (_, pp) =>
     [mkFeat "p2pos+p1pos" (p2p ++ "+" ++ pp),
      mkFeat "p2pos+p1pos+pos" (p2p ++ "+" ++ pp ++ "+" ++ pos)]
   | _, _ => []) ++
  (match n1, n2 with
   | some (_, np), some (_, n2p) =>
     [mkFeat "n1pos+n2pos" (np ++ "+" ++ n2p),
      mkFeat "pos+n1pos+n2pos" (pos ++ "+" ++ np ++ "+" ++ n2p)]
   | _, _ => [])

/-- Proper-noun run flag (source lines 185-187). -/
def pnRunFeats (pos : String) (p1 n1 : Option (String × String)) : List String :=
  let pChk : Bool := match p1 with | some (_, pp) => pp == "NNP" | none => false
  let nChk : Bool := match n1 with | some (_, np) => np == "NNP" | none => false
  if pos = "NNP" ∧ (pChk ∨ nChk) then ["pnRun=true"] else []

/-- MEMM-style previous-label hooks: the slot is always the constant
marker `@@` (source lines 189-195). -/
def prevBioFeats (include_prev_bio : Bool) (pos : String)
    (p1 : Option (String × String)) : List String :=
  if include_prev_bio then
    ["PrevBIO=@@"] ++
    (match p1 with
     | some (_, pp) => [mkFeat "PrevBIO+p1pos" ("@@+" ++ pp)]
     | none => []) ++
    [mkFeat "PrevBIO+pos" ("@@+" ++ pos)]
  else []

/-- NEW_F3 complementizer-"that" feature (source lines 197-200). -/
def thatCompFeats (p1 : Option (String × String)) : List String :=
  match p1 with
  | some (pw, pp) =>
    if lowerStr pw = "that" ∧ pp = "IN" then ["after_that_comp"] else []
  | none => []

/-- NEW_F1 coordination-after-punctuation feature (source lines 204-207). -/
def coordPunctFeats (wl : String) (p1 : Option (String × String)) : List String :=
  match p1 with
  | some (pw, _) =>
    if wl ∈ ["and", "or", "&"] ∧ pw ∈ [",", ";"] then ["coord_after_punct"] else []
  | none => []

/-- Proper-noun coordination feature (source lines 209-212). -/
def nnpAndNnpFeats (p1 n1 : Option (String × String)) : List String :=
  match p1, n1 with
  | some (_, pp), some (_, np) =>
    if startsW pp "NNP" ∧ startsW np "NNP" then ["nnp_and_nnp"] else []
  | _, _ => []

/-- Adjective coordination before a noun (source lines 214-217). -/
def adjCoordFeats (p1 n1 n2 : Option (String × String)) : List String :=
  match p1, n1, n2 with
  | some (_, pp), some (_, np), some (_, n2p) =>
    if startsW pp "JJ" ∧ startsW np "JJ" ∧ startsW n2p "NN" then
      ["adj_coord_before_n"]
    else []
  | _, _, _ => []

/-- Quantifier-in-previous-3 feature (source lines 219-226). -/
def quantFeats (hasQuant : Bool) : List String :=
  if hasQuant then ["quant_in_prev3"] else []

/-- CC_F1 noun-after-CC-at-boundary feature (source lines 230-234). -/
def ccBoundaryFeats (pos : String) (p1 n1 : Option (String × String)) : List String :=
  if pos ∈ ["NN", "NNS", "NNP", "NNPS"] then
    match p1 with
    | some (pw, _) =>
      if lowerStr pw ∈ ["and", "or", "&"] then
        match n1 with
        | some (_, np) =>
          if np ∈ [".", ",", ";", ":", "VBD", "VBZ", "VBP", "VBN", "MD", "IN"] then
            ["noun_after_cc_at_boundary"]
          else []
        | none => []
      else []
    | none => []
  else []

/-- CC_F2 list-coordination-after-comma feature (source lines 236-244). -/
def listCoordFeats (pos : String) (p1 : Option (String × String))
    (hasPrevComma : Bool) : List String :=
  match p1 with
  | some (pw, _) =>
    if lowerStr pw ∈ ["and", "or"] then
      if hasPrevComma ∧ pos ∈ ["NN", "NNS", "NNP", "NNPS"] then
        ["list_coord_after_comma"]
      else []
    else []
  | none => []

/-- CC_F3 phrase-level vs sentence-level coordination (source lines
246-260): requires the previous neighbor's tag in
`{NN,NNS,NNP,NNPS,JJ,CD}` and the next neighbor's tag in
`{NN,NNS,NNP,NNPS}`; then the choice is made by whether the token two
ahead exists and carries a `{NN,NNS,NNP,NNPS}` tag. -/
def ccLevelFeats (wl : String) (p1 n1 n2 : Option (String × String)) : List String :=
  if wl ∈ ["and", "or", "&"] then
    match p1, n1 with
    | some (_, pp), some (_, np) =>
      if pp ∈ ["NN", "NNS", "NNP", "NNPS", "JJ", "CD"] ∧
          np ∈ ["NN", "NNS", "NNP", "NNPS"] then
        match n2 with
        | some (_, n2p) =>
          if n2p ∈ ["NN", "NNS", "NNP", "NNPS"] then ["cc_phrase_level"]
          else ["cc_sentence_level"]
        | none => ["cc_sentence_level"]
      else []
    | _, _ => []
  else []

/-- CC_F4 noun-after-CC feature (source lines 262-264). -/
def nounAfterCcFeats (pos : String) (p1 : Option (String × String)) : List String :=
  match p1 with
  | some (_, pp) =>
    if pp = "CC" ∧ pos ∈ ["NN", "NNS", "NNP", "NNPS"] then ["noun_after_cc"] else []
  | none => []

/-- NEW_F4 comma-context features in NNP sequences (source lines 266-281). -/
def commaNnpFeats (pos : String) (p1 n1 : Option (String × String))
    (nnpCount : Nat) : List String :=
  if pos = "," then
    match p1, n1 with
    | some (_, pp), some (_, np) =>
      if pp = "NNP" ∧ np = "NNP" then
        if 3 ≤ nnpCount then ["comma_in_nnp_list"] else []
      else if pp = "NNP" ∧ np ∈ ["WP", "WDT", "WRB", "VBD", "VBZ", "VBP", "RB", "IN"] then
        ["comma_appositive"]
      else []
    | _, _ => []
  else []

/-- Currency/number symbol adjacency (source lines 285-287). -/
def symbolFeats (p1 : Option (String × String)) : List String :=
  match p1 with
  | some (pw, _) =>
    if lowerStr pw ∈ ["$", "#", "%"] then ["prev_is_symbol"] else []
  | none => []

/-- Determiner/possessive flag (source lines 289-291). -/
def determinerFeats (pos : String) : List String :=
  if pos ∈ ["DT", "PDT", "WDT", "PRP$"] then ["is_determiner"] else []

/-- Attributive adjective before a noun (source lines 293-296). -/
def jjBeforeNounFeats (pos : String) (n1 : Option (String × String)) : List String :=
  if startsW pos "JJ" then
    match n1 with
    | some (_, np) => if startsW np "NN" then ["jj_before_noun"] else []
    | none => []
  else []

/-- Comparative/superlative "more"/"most" before an NP (source lines
298-301). -/
def moreMostFeats (wl pos : String) (n1 : Option (String × String)) : List String :=
  if wl ∈ ["more", "most"] ∧ pos ∈ ["RBR", "RBS", "JJR", "JJS"] then
    match n1 with
    | some (_, np) => if startsW np "JJ" ∨ startsW np "NN" then ["more_most_before_np"] else []
    | none => []
  else []

/-- `token_feats(sent, i, include_prev_bio)`: the feature blocks in the
exact append order of the source. -/
def token_feats (sent : List Tok) (i : Nat) (include_prev_bio : Bool) : List String :=
  baseFeats (wv sent i) (posv sent i) (wlv sent i) ++
  boundaryFeats (p1v sent i) (p2v sent i) (n1v sent i) (n2v sent i) ++
  quoteFeats (posv sent i) (p1v sent i) (n1v sent i) ++
  neighborFeats (p1v sent i) (n1v sent i) ++
  windowFeats (p2v sent i) (n2v sent i) ++
  ngramFeats (posv sent i) (p1v sent i) (p2v sent i) (n1v sent i) (n2v sent i) ++
  pnRunFeats (posv sent i) (p1v sent i) (n1v sent i) ++
  prevBioFeats include_prev_bio (posv sent i) (p1v sent i) ++
  thatCompFeats (p1v sent i) ++
  coordPunctFeats (wlv sent i) (p1v sent i) ++
  nnpAndNnpFeats (p1v sent i) (n1v sent i) ++
  adjCoordFeats (p1v sent i) (n1v sent i) (n2v sent i) ++
  quantFeats (quantScan sent i) ++
  ccBoundaryFeats (posv sent i) (p1v sent i) (n1v sent i) ++
  listCoordFeats (posv sent i) (p1v sent i) (commaScan sent i) ++
  ccLevelFeats (wlv sent i) (p1v sent i) (n1v sent i) (n2v sent i) ++
  nounAfterCcFeats (posv sent i) (p1v sent i) ++
  commaNnpFeats (posv sent i) (p1v sent i) (n1v sent i) (nnpWindowCount sent i) ++
  symbolFeats (p1v sent i) ++
  determinerFeats (posv sent i) ++
  jjBeforeNounFeats (posv sent i) (n1v sent i) ++
  moreMostFeats (wlv sent i) (posv sent i) (n1v sent i)

/-! ### Bounds-checked variant of `token_feats`

Every direct (non-`safe_tok`) subscript of the source — `sent[i]` at the
top and `sent[j]` inside the quantifier, comma-scan and NNP-window
loops — is replaced by `List.get?`, so the whole extraction returns
`none` if any such access were out of range.  Agreement with
`token_feats` (for `i < sent.length`) is the in-range-access claim. -/

/-- Quantifier scan with checked accesses. -/
def quantScanChecked (sent : List Tok) (i : Nat) : Option Bool :=
  ((List.range' (i - 3) (i - (i - 3))).mapM (fun j => sent.get? j)).map
    (fun toks => toks.any (fun t => t.pos ∈ ["CD", "DT", "PRP$"]))

/-- Comma scan with checked accesses. -/
def commaScanChecked (sent : List Tok) (i : Nat) : Option Bool :=
  ((List.range' (i - 5) (i - (i - 5))).mapM (fun j => sent.get? j)).map
    (fun toks => toks.any (fun t => t.w = ","))

/-- NNP window count with checked accesses. -/
def nnpWindowCountChecked (sent : List Tok) (i : Nat) : Option Nat :=
  (((List.range' (i - 3) (min sent.length (i + 4) - (i - 3))).mapM
      (fun j => (sent.get? j).map (fun t => (j, t)))).map
    (fun l => (l.filter (fun q => q.1 ≠ i ∧ q.2.pos = "NNP")).length))

/-- `token_feats` with every direct subscript bounds-checked. -/
def token_featsChecked (sent : List Tok) (i : Nat) (include_prev_bio : Bool) :
    Option (List String) := do
  let t ← sent.get? i
  let hq ← quantScanChecked sent i
  let hc ← commaScanChecked sent i
  let nc ← nnpWindowCountChecked sent i
  pure (baseFeats t.w t.pos (lowerStr t.w) ++
    boundaryFeats (p1v sent i) (p2v sent i) (n1v sent i) (n2v sent i) ++
    quoteFeats t.pos (p1v sent i) (n1v sent i) ++
    neighborFeats (p1v sent i) (n1v sent i) ++
    windowFeats (p2v sent i) (n2v sent i) ++
    ngramFeats t.pos (p1v sent i) (p2v sent i) (n1v sent i) (n2v sent i) ++
    pnRunFeats t.pos (p1v sent i) (n1v sent i) ++
    prevBioFeats include_prev_bio t.pos (p1v sent i) ++
    thatCompFeats (p1v sent i) ++
    coordPunctFeats (lowerStr t.w) (p1v sent i) ++
    nnpAndNnpFeats (p1v sent i) (n1v sent i) ++
    adjCoordFeats (p1v sent i) (n1v sent i) (n2v sent i) ++
    quantFeats hq ++
    ccBoundaryFeats t.pos (p1v sent i) (n1v sent i) ++
    listCoordFeats t.pos (p1v sent i) hc ++
    ccLevelFeats (lowerStr t.w) (p1v sent i) (n1v sent i) (n2v sent i) ++
    nounAfterCcFeats t.pos (p1v sent i) ++
    commaNnpFeats t.pos (p1v sent i) (n1v sent i) nc ++
    symbolFeats (p1v sent i) ++
    determinerFeats t.pos ++
    jjBeforeNounFeats t.pos (n1v sent i) ++
    moreMostFeats (lowerStr t.w) t.pos (n1v sent i))

/-! ### Corpus reader and feature serializer
(`read_wsj` lines 11-37, `write_features` lines 305-316) -/

/-- Parse one non-blank corpus line: split on tabs, demand at least 3
(with BIO) or 2 (without) fields, as in `read_wsj`. -/
def parseLine (hasBio : Bool) (line : String) : Except String Tok :=
  let parts := splitTab line
  if hasBio then
    if parts.length < 3 then
      .error ("Expected WORD\tPOS\tBIO, got: " ++ line)
    else
      .ok ⟨parts.getD 0 "", parts.getD 1 "", some (parts.getD 2 "")⟩
  else
    if parts.length < 2 then
      .error ("Expected WORD\tPOS, got: " ++ line)
    else
      .ok ⟨parts.getD 0 "", parts.getD 1 "", none⟩

/-- The loop of `read_wsj`, with `cur` the pending sentence: a blank line
flushes `cur` (when non-empty) and then records an explicit empty
sentence; end of input flushes a pending `cur`. -/
def read_wsjAux (hasBio : Bool) : List String → List Tok → Except String (List (List Tok))
  | [], cur => .ok (if cur.isEmpty then [] else [cur])
  | line :: rest, cur =>
    if line = "" then
      match read_wsjAux hasBio rest [] with
      | .ok s => .ok ((if cur.isEmpty then [] else [cur]) ++ [] :: s)
      | .error e => .error e
    else
      match parseLine hasBio line with
      | .ok t => read_wsjAux hasBio rest (cur ++ [t])
      | .error e => .error e

/-- `read_wsj` over the file's lines (each already stripped of its
trailing newline, as by `raw.rstrip("\n")`). -/
def read_wsj (hasBio : Bool) (lines : List String) : Except String (List (List Tok)) :=
  read_wsjAux hasBio lines []

/-- One output line of `write_features`: the token's word, its features,
and (in training mode) its gold BIO label, tab-joined. -/
def featLine (sent : List Tok) (i : Nat) (isTraining : Bool) : String :=
  joinTab ([(sent.getD i defaultTok).w] ++ token_feats sent i true ++
    (if isTraining then [((sent.getD i defaultTok).bio).getD ""] else []))

/-- `write_features` as the list of lines it writes: one blank line per
empty sentence, one feature line per token. -/
def write_features (sents : List (List Tok)) (isTraining : Bool) : List String :=
  sents.flatMap (fun sent =>
    if sent.isEmpty then [""]
    else (List.range sent.length).map (fun i => featLine sent i isTraining))

/-! ### BIO consistency checker (`analyze_bio_violations.py`) -/

/-- The loop body of `read_pos_file` (lines 11-29): blank lines flush and
record an empty sentence; non-blank lines contribute a `(word, pos)` pair
only when they split into at least 2 tab fields, and are silently skipped
otherwise. -/
def read_pos_fileAux : List String → List (String × String) → List (List (String × String))
  | [], cur => if cur.isEmpty then [] else [cur]
  | line :: rest, cur =>
    if line = "" then
      (if cur.isEmpty then [] else [cur]) ++ [] :: read_pos_fileAux rest []
    else
      let parts := splitTab line
      if 2 ≤ parts.length then
        read_pos_fileAux rest (cur ++ [(parts.getD 0 "", parts.getD 1 "")])
      else
        read_pos_fileAux rest cur

/-- `read_pos_file` over the file's lines. -/
def read_pos_file (lines : List String) : List (List (String × String)) :=
  read_pos_fileAux lines []

/-- The loop body of `read_bio_file` (lines 31-50): as `read_pos_file`,
but keeping only the last tab field (`parts[-1]`) of each accepted line. -/
def read_bio_fileAux : List String → List String → List (List String)
  | [], cur => if cur.isEmpty then [] else [cur]
  | line :: rest, cur =>
    if line = "" then
      (if cur.isEmpty then [] else [cur]) ++ [] :: read_bio_fileAux rest []
    else
      let parts := splitTab line
      if 2 ≤ parts.length then
        read_bio_fileAux rest (cur ++ [parts.getLastD ""])
      else
        read_bio_fileAux rest cur

/-- `read_bio_file` over the file's lines. -/
def read_bio_file (lines : List String) : List (List String) :=
  read_bio_fileAux lines []

/-- The per-sentence violation loop of `main` (lines 75-90): walk the
zipped triple with `enumerate`, tracking `prev_pred` (initially the
start marker `@@`), and record the token index of every position whose
previous predicted label is `O` and current predicted label `I-NP`. -/
def violLoop : List ((String × String) × String × String) → Nat → String → List Nat
  | [], _, _ => []
  | (_, _, pred) :: rest, i, prev =>
    (if prev = "O" ∧ pred = "I-NP" then [i] else []) ++ violLoop rest (i + 1) pred

/-- The token indices the Checker flags in one sentence, given the
aligned `(word, pos)`, gold and predicted sequences (`zip` truncates to
the shortest as in Python). -/
def sentenceViolations (ps : List (String × String)) (gs prs : List String) : List Nat :=
  violLoop (ps.zip (gs.zip prs)) 0 "@@"

/-! ### Error-analysis pass (`error_analysis.py`) -/

/-- `parse_bio(tag)`: `tag.strip().split('-')[0]`. -/
def parse_bio (tag : String) : String := (splitDash (stripStr tag)).getD 0 ""

/-- Outcome of one `error_analysis.main` comparison run: the tag-match
tallies and the (0-based) line indices reported as token mismatches.
The per-pattern frequency tables built from the same comparisons are
not modelled; they do not affect control flow. -/
structure EAcc where
  correct : Nat
  incorrect : Nat
  mismatches : List Nat
deriving DecidableEq, Repr

/-- The comparison loop of `error_analysis.main` (lines 72-111), over the
line-aligned `(key, response)` pairs starting at line index `i`.
`sys.exit(3)` on a broken sentence break and the `ValueError` of
unpacking a key line without exactly 2 tab fields are modelled as
`.error`; a token mismatch records the line index and continues. -/
def eaLoop : List (String × String) → Nat → EAcc → Except String EAcc
  | [], _, acc => .ok acc
  | (k, r) :: rest, i, acc =>
    if k = "" then
      if r = "" then eaLoop rest (i + 1) acc
      else .error ("sentence break expected at line " ++ toString i)
    else if (splitTab k).length = 2 then
      if (splitTab k).getD 0 "" = (splitTab r ++ [""]).getD 0 "" then
        if parse_bio ((splitTab k).getD 1 "") =
            parse_bio ((splitTab r ++ [""]).getD 1 "") then
          eaLoop rest (i + 1) { acc with correct := acc.correct + 1 }
        else
          eaLoop rest (i + 1) { acc with incorrect := acc.incorrect + 1 }
      else
        eaLoop rest (i + 1) { acc with mismatches := acc.mismatches ++ [i] }
    else .error ("ValueError: unpack at line " ++ toString i)

/-- `error_analysis.main` on the key and response line lists: abort
(`sys.exit(2)`) on a length mismatch, else run the comparison loop. -/
def eaProcess (key resp : List String) : Except String EAcc :=
  if key.length ≠ resp.length then .error "length mismatch between key and response"
  else eaLoop (key.zip resp) 0 ⟨0, 0, []⟩

/-- The line indices expected to be reported as token mismatches: the
non-blank lines whose key token differs from the response token. -/
def mismatchSpec (key resp : List String) : List Nat :=
  (((key.zip resp).enum).filter (fun p =>
    p.2.1 ≠ "" ∧ (splitTab p.2.1).getD 0 "" ≠ (splitTab p.2.2 ++ [""]).getD 0 "")).map
    Prod.fst

/-! ### Spec-side definition for the word-shape claim

Modelled from the spec's words for the amended collapsing claim: map
every character to its class symbol, then collapse adjacent repeats of
the three alphanumeric class symbols `X`, `x`, `d`; separator and
other-class characters contribute one symbol per input character. -/

/-- Collapse adjacent duplicates of `X`/`x`/`d` in a symbol list. -/
def collapseXxd : List Char → List Char
  | [] => []
  | c :: rest =>
    c :: collapseXxd (if c = 'X' ∨ c = 'x' ∨ c = 'd' then rest.dropWhile (· == c) else rest)
termination_by l => l.length
decreasing_by
  simp only [List.length_cons]
  split
  · exact Nat.lt_succ_of_le (List.dropWhile_sublist (· == c)).length_le
  · exact Nat.lt_succ_self _

/-- The amended word-shape specification. -/
def wordShapeSpec (w : String) : String := ⟨collapseXxd (w.data.map shapeClass)⟩

/-- The surface form `"co-op's"` (built characterwise to keep the
apostrophe explicit). -/
def coopStr : String := ⟨['c', 'o', '-', 'o', 'p', apos, 's']⟩

/-- The shape the spec expects for `"co-op's"`: `x-x'x`. -/
def coopShape : String := ⟨['x', '-', 'x', apos, 'x']⟩

/-! ## Theorems -/

/-- `wordShapeAux` is class-mapping followed by run-collapsing of the
three alphanumeric class symbols, where a pending `X`/`x`/`d` symbol
`prev` first absorbs a leading run of its own class. -/
theorem wordShapeAux_eq_collapse (l : List Char) :
    ∀ prev : Option Char,
      wordShapeAux l prev =
        collapseXxd
          (match prev with
           | some p =>
             if p = 'X' ∨ p = 'x' ∨ p = 'd' then (l.map shapeClass).dropWhile (· == p)
             else l.map shapeClass
           | none => l.map shapeClass) := by
  induction l with
  | nil =>
    intro prev
    rcases prev with _ | p
    · simp [wordShapeAux, collapseXxd]
    · by_cases hp : p = 'X' ∨ p = 'x' ∨ p = 'd' <;>
        simp [wordShapeAux, hp, collapseXxd]
  | cons ch rest ih =>
    intro prev
    by_cases hskip : (shapeClass ch = 'X' ∨ shapeClass ch = 'x' ∨ shapeClass ch = 'd') ∧
        prev = some (shapeClass ch)
    · obtain ⟨hcls, hprev⟩ := hskip
      subst hprev
      rw [show wordShapeAux (ch :: rest) (some (shapeClass ch)) =
            wordShapeAux rest (some (shapeClass ch)) by
          simp [wordShapeAux, hcls]]
      rw [ih (some (shapeClass ch))]
      simp [hcls, List.dropWhile_cons]
    · rw [show wordShapeAux (ch :: rest) prev =
            shapeClass ch :: wordShapeAux rest (some (shapeClass ch)) by
          simp only [wordShapeAux]
          rw [if_neg hskip]]
      rw [ih (some (shapeClass ch))]
      rcases prev with _ | p
      · by_cases hcls : shapeClass ch = 'X' ∨ shapeClass ch = 'x' ∨ shapeClass ch = 'd' <;>
          simp [collapseXxd, hcls]
      · by_cases hp : p = 'X' ∨ p = 'x' ∨ p = 'd'
        · have hne : ¬(shapeClass ch == p) = true := by
            intro hb
            have : shapeClass ch = p := by simpa using hb
            subst this
            exact hskip ⟨hp, rfl⟩
          by_cases hcls : shapeClass ch = 'X' ∨ shapeClass ch = 'x' ∨ shapeClass ch = 'd' <;>
            simp [hp, List.dropWhile_cons, hne, collapseXxd, hcls]
        · by_cases hcls : shapeClass ch = 'X' ∨ shapeClass ch = 'x' ∨ shapeClass ch = 'd' <;>
            simp [hp, collapseXxd, hcls]

/-- C7 (amended): `word_shape` classifies each character into the five
classes and collapses runs only for the uppercase/lowercase/digit
classes; separator and other-class characters yield one symbol per input
character (separators verbatim).  The two examples of the claim hold as
stated. -/
theorem c7_word_shape_amended :
    (∀ w : String, word_shape w = wordShapeSpec w) ∧
    word_shape "AAAbbb123" = "Xxd" ∧
    word_shape coopStr = coopShape := by
  refine ⟨fun w => ?_, by decide, by decide⟩
  show (⟨wordShapeAux w.data none⟩ : String) = wordShapeSpec w
  rw [wordShapeAux_eq_collapse w.data none]
  rfl

/-- C7 counterexample: the claim's "collapses every run of consecutive
same-class characters to a single output symbol" fails for the
other-character class: `word_shape "!!"` keeps both symbols of the
single same-class run, producing a 2-symbol shape instead of 1. -/
theorem c7_counterexample :
    word_shape "!!" = "__" ∧ (word_shape "!!").data.length = 2 ∧
    shapeClass '!' = '_' ∧ (("__" : String) == "_") = false := by
  decide

/-- C8 (amended): `is_punct w` holds iff `w` is non-empty and every
character is non-alphanumeric, not an underscore, and non-whitespace
(the regex class `[^\w\s]`, where `\w` includes the underscore). -/
theorem c8_is_punct_amended (w : String) :
    is_punct w = true ↔
      w.data ≠ [] ∧
        ∀ c ∈ w.data, c.isAlphanum = false ∧ c ≠ '_' ∧ c.isWhitespace = false := by
  simp only [is_punct, Bool.and_eq_true, List.all_eq_true, Bool.not_eq_true',
    Bool.or_eq_false_iff, beq_eq_false_iff_ne, ne_eq, List.isEmpty_eq_false]
  constructor
  · rintro ⟨hne, hall⟩
    exact ⟨hne, fun c hc => ⟨(hall c hc).1.1, (hall c hc).1.2, (hall c hc).2⟩⟩
  · rintro ⟨hne, hall⟩
    exact ⟨hne, fun c hc => ⟨⟨(hall c hc).1, (hall c hc).2.1⟩, (hall c hc).2.2⟩⟩

/-- C8 counterexample: the claim says a token consisting only of an
underscore satisfies the punctuation predicate (underscore being
non-alphanumeric and non-whitespace), but the source regex `[^\w\s]`
excludes `\w = [A-Za-z0-9_]`, so `is_punct "_"` is false. -/
theorem c8_counterexample :
    ('_'.isAlphanum = false) ∧ ('_'.isWhitespace = false) ∧
      (("_" : String).data.isEmpty = false) ∧ is_punct "_" = false := by
  decide

/-! ### C10: the Checker's readers silently drop malformed lines -/

/-- A line the Checker's readers accept: blank, or at least 2 tab fields. -/
def keepLine (l : String) : Bool := (l == "") || decide (2 ≤ (splitTab l).length)

theorem read_pos_fileAux_filter (lines : List String) :
    ∀ cur, read_pos_fileAux lines cur = read_pos_fileAux (lines.filter keepLine) cur := by
  induction lines with
  | nil => intro cur; rfl
  | cons line rest ih =>
    intro cur
    by_cases hb : line = ""
    · subst hb
      simp [read_pos_fileAux, List.filter_cons, keepLine, ih]
    · by_cases hf : 2 ≤ (splitTab line).length
      · have hk : keepLine line = true := by simp [keepLine, hf]
        simp [read_pos_fileAux, List.filter_cons, hk, hb, hf, ih]
      · have hk : keepLine line = false := by simp [keepLine, hf, hb]
        simp [read_pos_fileAux, List.filter_cons, hk, hb, hf, ih]

theorem read_bio_fileAux_filter (lines : List String) :
    ∀ cur, read_bio_fileAux lines cur = read_bio_fileAux (lines.filter keepLine) cur := by
  induction lines with
  | nil => intro cur; rfl
  | cons line rest ih =>
    intro cur
    by_cases hb : line = ""
    · subst hb
      simp [read_bio_fileAux, List.filter_cons, keepLine, ih]
    · by_cases hf : 2 ≤ (splitTab line).length
      · have hk : keepLine line = true := by simp [keepLine, hf]
        simp [read_bio_fileAux, List.filter_cons, hk, hb, hf, ih]
      · have hk : keepLine line = false := by simp [keepLine, hf, hb]
        simp [read_bio_fileAux, List.filter_cons, hk, hb, hf, ih]

/-- C10: `read_pos_file` and `read_bio_file` never fail and behave as if
every non-blank line with fewer than 2 tab fields had been deleted from
the input (no error, no placeholder).  On the concrete file
`["a\tA", "bad", "c\tC"]` the malformed middle line vanishes: the single
resulting sentence has 2 tokens against 3 non-blank input lines, so the
token previously at index 2 shifts to index 1. -/
theorem c10_silent_drop :
    (∀ lines : List String, read_pos_file lines = read_pos_file (lines.filter keepLine)) ∧
    (∀ lines : List String, read_bio_file lines = read_bio_file (lines.filter keepLine)) ∧
    read_pos_file ["a\tA", "bad", "c\tC"] = [[("a", "A"), ("c", "C")]] ∧
    (["a\tA", "bad", "c\tC"].filter (fun l => !(l == ""))).length = 3 ∧
    ((read_pos_file ["a\tA", "bad", "c\tC"]).getD 0 []).getD 1 ("", "") = ("c", "C") ∧
    read_bio_file ["x", "b\tNN\tB-NP"] = [["B-NP"]] := by
  refine ⟨fun lines => read_pos_fileAux_filter lines [],
          fun lines => read_bio_fileAux_filter lines [], ?_, ?_, ?_, ?_⟩ <;> decide

/-! ### C2 and C3: the Checker's flagged positions -/

/-- `violLoop` restricted to the predicted labels (the only component the
flagging condition reads). -/
def predLoop : List String → Nat → String → List Nat
  | [], _, _ => []
  | p :: rest, i, prev =>
    (if prev = "O" ∧ p = "I-NP" then [i] else []) ++ predLoop rest (i + 1) p

theorem violLoop_eq_predLoop (l : List ((String × String) × String × String)) :
    ∀ k prev, violLoop l k prev = predLoop (l.map (fun x => x.2.2)) k prev := by
  induction l with
  | nil => intro k prev; rfl
  | cons hd rest ih =>
    intro k prev
    obtain ⟨_, _, pred⟩ := hd
    simp [violLoop, predLoop, ih]

theorem zip3_map_pred (ps : List (String × String)) :
    ∀ (gs prs : List String), ps.length = prs.length → gs.length = prs.length →
      (ps.zip (gs.zip prs)).map (fun x => x.2.2) = prs := by
  induction ps with
  | nil =>
    intro gs prs h1 _
    have : prs = [] := List.eq_nil_of_length_eq_zero h1.symm
    simp [this]
  | cons p ps ih =>
    intro gs prs h1 h2
    cases prs with
    | nil => simp at h1
    | cons pr prs =>
      cases gs with
      | nil => simp at h2
      | cons g gs =>
        simp only [List.zip_cons_cons, List.map_cons]
        rw [ih gs prs (by simpa using h1) (by simpa using h2)]

theorem mem_predLoop (l : List String) :
    ∀ (k : Nat) (prev : String) (i : Nat),
      i ∈ predLoop l k prev ↔
        ∃ j, j < l.length ∧ i = k + j ∧
          (if j = 0 then prev else l.getD (j - 1) "") = "O" ∧ l.getD j "" = "I-NP" := by
  induction l with
  | nil => intro k prev i; simp [predLoop]
  | cons p rest ih =>
    intro k prev i
    simp only [predLoop, List.mem_append]
    constructor
    · intro h
      rcases h with h | h
      · refine ⟨0, by simp, ?_, ?_, ?_⟩ <;>
          [skip; skip; skip] <;> split at h <;> simp_all
      · obtain ⟨j, hj, hi, hprev, hcur⟩ := (ih (k + 1) p i).mp h
        refine ⟨j + 1, by simpa using hj, by omega, ?_, by simpa using hcur⟩
        simp only [Nat.add_sub_cancel, if_neg (Nat.succ_ne_zero j)]
        rcases j with _ | j'
        · simpa using hprev
        · simpa using hprev
    · rintro ⟨j, hj, hi, hprev, hcur⟩
      rcases j with _ | j'
      · left
        simp only [List.getD_cons_zero] at hcur
        simp_all
      · right
        refine (ih (k + 1) p i).mpr ⟨j', by simpa using hj, by omega, ?_, by simpa using hcur⟩
        rcases j' with _ | j''
        · simpa using hprev
        · simpa using hprev

/-- C2: the Checker's flagged positions in an aligned sentence triple are
exactly the indices `i ≥ 1` with `pred[i-1] = "O"` and `pred[i] = "I-NP"`;
if no such adjacency exists, it reports zero findings. -/
theorem c2_illegal_transitions (ps : List (String × String)) (gs prs : List String)
    (h1 : ps.length = prs.length) (h2 : gs.length = prs.length) :
    (∀ i, i ∈ sentenceViolations ps gs prs ↔
        1 ≤ i ∧ i < prs.length ∧ prs.getD (i - 1) "" = "O" ∧ prs.getD i "" = "I-NP") ∧
    ((∀ j, j + 1 < prs.length →
        ¬(prs.getD j "" = "O" ∧ prs.getD (j + 1) "" = "I-NP")) →
      sentenceViolations ps gs prs = []) := by
  have hmem : ∀ i, i ∈ sentenceViolations ps gs prs ↔
      1 ≤ i ∧ i < prs.length ∧ prs.getD (i - 1) "" = "O" ∧ prs.getD i "" = "I-NP" := by
    intro i
    unfold sentenceViolations
    rw [violLoop_eq_predLoop, zip3_map_pred ps gs prs h1 h2, mem_predLoop]
    constructor
    · rintro ⟨j, hj, hi, hprev, hcur⟩
      rcases j with _ | j'
      · simp at hprev
      · subst hi
        simp only [if_neg (Nat.succ_ne_zero j')] at hprev
        exact ⟨by omega, by simpa using hj, by simpa using hprev, by simpa using hcur⟩
    · rintro ⟨hi1, hilen, hprev, hcur⟩
      refine ⟨i, hilen, by omega, ?_, hcur⟩
      rw [if_neg (by omega)]
      exact hprev
  refine ⟨hmem, fun hno => ?_⟩
  rw [List.eq_nil_iff_forall_not_mem]
  intro i hi
  obtain ⟨hi1, hilen, hprev, hcur⟩ := (hmem i).mp hi
  exact hno (i - 1) (by omega) ⟨hprev, by rw [show i - 1 + 1 = i by omega]; exact hcur⟩

/-- Witness for `c2_illegal_transitions` at a concrete aligned triple:
the predicted sequence `O, I-NP, B-NP` is flagged exactly at index 1. -/
theorem c2_illegal_transitions_witness :
    1 ∈ sentenceViolations [("a", "NN"), ("b", "NN"), ("c", "NN")] ["O", "O", "O"]
        ["O", "I-NP", "B-NP"] ↔
      1 ≤ 1 ∧ 1 < (["O", "I-NP", "B-NP"] : List String).length ∧
        (["O", "I-NP", "B-NP"] : List String).getD (1 - 1) "" = "O" ∧
        (["O", "I-NP", "B-NP"] : List String).getD 1 "" = "I-NP" :=
  (c2_illegal_transitions [("a", "NN"), ("b", "NN"), ("c", "NN")] ["O", "O", "O"]
    ["O", "I-NP", "B-NP"] (by decide) (by decide)).1 1

theorem mem_violLoop_lower (l : List ((String × String) × String × String)) :
    ∀ (k : Nat) (prev : String) (i : Nat),
      i ∈ violLoop l k prev → k ≤ i ∧ (i = k → prev = "O") := by
  induction l with
  | nil => intro k prev i h; simp [violLoop] at h
  | cons hd rest ih =>
    intro k prev i h
    obtain ⟨_, _, pred⟩ := hd
    simp only [violLoop, List.mem_append] at h
    rcases h with h | h
    · split at h <;> simp_all
    · obtain ⟨hle, _⟩ := ih (k + 1) pred i h
      exact ⟨by omega, fun hik => by omega⟩

/-- C3 (amended): the Checker flags only positions whose previous
predicted label is literally `"O"`; the sentence-initial previous label
is the synthetic start marker `"@@"`, so a sentence whose first predicted
label is `"I-NP"` (an invariant violation at sentence start) produces no
finding at token index 0 — every flagged index is at least 1. -/
theorem c3_amended (ps : List (String × String)) (gs prs : List String) :
    (sentenceViolations ps gs prs).all (fun i => decide (1 ≤ i)) = true := by
  rw [List.all_eq_true]
  intro i hi
  obtain ⟨hle, hzero⟩ := mem_violLoop_lower (ps.zip (gs.zip prs)) 0 "@@" i hi
  have : i ≠ 0 := by
    intro h0
    exact absurd (hzero h0) (by decide)
  simpa using Nat.one_le_iff_ne_zero.mpr this

/-- C3 counterexample: a sentence whose first predicted label is `"I-NP"`
— the claim demands a finding at token index 0 — yields no findings at
all. -/
theorem c3_counterexample :
    sentenceViolations [("The", "DT")] ["B-NP"] ["I-NP"] = [] := by
  decide

/-! ### C5: token misalignment in the error-analysis pass -/

theorem eaLoop_ok (pairs : List (String × String)) :
    ∀ (i : Nat) (acc : EAcc),
      (∀ p ∈ pairs, p.1 = "" → p.2 = "") →
      (∀ p ∈ pairs, p.1 ≠ "" → (splitTab p.1).length = 2) →
      ∃ res, eaLoop pairs i acc = .ok res ∧
        res.mismatches = acc.mismatches ++
          ((pairs.enumFrom i).filter (fun p =>
            p.2.1 ≠ "" ∧
              (splitTab p.2.1).getD 0 "" ≠ (splitTab p.2.2 ++ [""]).getD 0 "")).map
            Prod.fst := by
  induction pairs with
  | nil => intro i acc _ _; exact ⟨acc, rfl, by simp⟩
  | cons pr rest ih =>
    intro i acc hblank hfields
    obtain ⟨k, r⟩ := pr
    have hstep : (List.enumFrom i ((k, r) :: rest)) = (i, (k, r)) :: List.enumFrom (i + 1) rest :=
      rfl
    by_cases hk : k = ""
    · subst hk
      have hr : r = "" := hblank ("", r) (by simp) rfl
      subst hr
      obtain ⟨res, hres, hmis⟩ := ih (i + 1) acc
        (fun p hp => hblank p (List.mem_cons_of_mem _ hp))
        (fun p hp => hfields p (List.mem_cons_of_mem _ hp))
      refine ⟨res, ?_, ?_⟩
      · rw [eaLoop, if_pos rfl, if_pos rfl]
        exact hres
      · rw [hmis, hstep, List.filter_cons, if_neg (by simp)]
    · have hlen2 : (splitTab k).length = 2 := hfields (k, r) (by simp) hk
      by_cases htok : (splitTab k).getD 0 "" = (splitTab r ++ [""]).getD 0 ""
      · have hdrop : (List.enumFrom i ((k, r) :: rest)).filter
            (fun p => p.2.1 ≠ "" ∧
              (splitTab p.2.1).getD 0 "" ≠ (splitTab p.2.2 ++ [""]).getD 0 "") =
            (List.enumFrom (i + 1) rest).filter
              (fun p => p.2.1 ≠ "" ∧
                (splitTab p.2.1).getD 0 "" ≠ (splitTab p.2.2 ++ [""]).getD 0 "") := by
          rw [hstep, List.filter_cons,
            if_neg (by simp only [decide_eq_true_eq]; exact fun h => h.2 htok)]
        by_cases htag : parse_bio ((splitTab k).getD 1 "") =
            parse_bio ((splitTab r ++ [""]).getD 1 "")
        · obtain ⟨res, hres, hmis⟩ := ih (i + 1) { acc with correct := acc.correct + 1 }
            (fun p hp => hblank p (List.mem_cons_of_mem _ hp))
            (fun p hp => hfields p (List.mem_cons_of_mem _ hp))
          refine ⟨res, ?_, ?_⟩
          · rw [eaLoop, if_neg hk, if_pos hlen2, if_pos htok, if_pos htag]
            exact hres
          · rw [hmis, hdrop]
        · obtain ⟨res, hres, hmis⟩ := ih (i + 1) { acc with incorrect := acc.incorrect + 1 }
            (fun p hp => hblank p (List.mem_cons_of_mem _ hp))
            (fun p hp => hfields p (List.mem_cons_of_mem _ hp))
          refine ⟨res, ?_, ?_⟩
          · rw [eaLoop, if_neg hk, if_pos hlen2, if_pos htok, if_neg htag]
            exact hres
          · rw [hmis, hdrop]
      · obtain ⟨res, hres, hmis⟩ := ih (i + 1)
          { acc with mismatches := acc.mismatches ++ [i] }
          (fun p hp => hblank p (List.mem_cons_of_mem _ hp))
          (fun p hp => hfields p (List.mem_cons_of_mem _ hp))
        refine ⟨res, ?_, ?_⟩
        · rw [eaLoop, if_neg hk, if_pos hlen2, if_neg htok]
          exact hres
        · rw [hmis, hstep, List.filter_cons,
            if_pos (by simp only [decide_eq_true_eq]; exact ⟨hk, htok⟩),
            List.map_cons, List.append_assoc]
          rfl

/-- C5 (amended): a token mismatch between a key line and its response
line does NOT abort the run: whenever the two files are line-aligned
(equal lengths, matching sentence breaks, 2 tab fields on every
non-blank key line), the pass runs to completion, emits one diagnostic
per offending line — exactly the non-blank lines whose key and response
tokens differ — excludes those lines from the tag tallies, and continues
with the remaining lines. -/
theorem c5_amended (key resp : List String) (hlen : key.length = resp.length)
    (hblank : ∀ p ∈ key.zip resp, p.1 = "" → p.2 = "")
    (hfields : ∀ p ∈ key.zip resp, p.1 ≠ "" → (splitTab p.1).length = 2) :
    ∃ res, eaProcess key resp = .ok res ∧ res.mismatches = mismatchSpec key resp := by
  obtain ⟨res, hres, hmis⟩ := eaLoop_ok (key.zip resp) 0 ⟨0, 0, []⟩ hblank hfields
  refine ⟨res, ?_, ?_⟩
  · unfold eaProcess
    rw [if_neg (by omega)]
    exact hres
  · rw [hmis]
    simp [mismatchSpec, List.enum]

/-- Witness for `c5_amended`: a concrete pair of aligned files with a
token mismatch on line 0 completes and reports exactly that line. -/
theorem c5_amended_witness :
    ∃ res, eaProcess ["a\tB-NP", "b\tB-NP"] ["x\tB-NP", "b\tO"] = .ok res ∧
      res.mismatches = mismatchSpec ["a\tB-NP", "b\tB-NP"] ["x\tB-NP", "b\tO"] :=
  c5_amended ["a\tB-NP", "b\tB-NP"] ["x\tB-NP", "b\tO"] (by decide) (by decide) (by decide)

/-- C5 counterexample: the claim says a token mismatch aborts the run
rather than continuing with the remaining lines; in fact the run with a
mismatch at line 0 completes normally (`Except.ok`), still processes
line 1 (tallying its incorrect tag), and merely records line 0 as a
diagnostic. -/
theorem c5_counterexample :
    eaProcess ["a\tB-NP", "b\tB-NP"] ["x\tB-NP", "b\tO"] =
      .ok ⟨0, 1, [0]⟩ := by
  rfl

/-! ### C1: round-trip line preservation -/

theorem token_feats_ne_nil (s : List Tok) (i : Nat) (b : Bool) :
    token_feats s i b ≠ [] := by
  simp [token_feats, baseFeats]

theorem joinTab_two (x y : String) (l : List String) :
    joinTab (x :: y :: l) = x ++ "\t" ++ joinTab (y :: l) := rfl

theorem append_tab_ne_empty (a b : String) : a ++ "\t" ++ b ≠ "" := by
  intro h
  have hd := congrArg String.data h
  simp [String.data_append] at hd

theorem featLine_head (sent : List Tok) (i : Nat) (tr : Bool) :
    ∃ rest, featLine sent i tr = (sent.getD i defaultTok).w ++ "\t" ++ rest := by
  unfold featLine
  cases hf : token_feats sent i true with
  | nil => exact absurd hf (token_feats_ne_nil sent i true)
  | cons a l =>
    refine ⟨joinTab (a :: (l ++ if tr then [(sent.getD i defaultTok).bio.getD ""] else [])), ?_⟩
    simp only [List.cons_append, List.nil_append]
    exact joinTab_two _ _ _

theorem featLine_ne_empty (sent : List Tok) (i : Nat) (tr : Bool) :
    (featLine sent i tr == "") = false := by
  obtain ⟨rest, hr⟩ := featLine_head sent i tr
  rw [hr]
  exact beq_eq_false_iff_ne.mpr (append_tab_ne_empty _ _)

/-- The blank/non-blank mask of the lines `write_features` produces for a
flushed pending sentence `cur`. -/
theorem mask_flush (cur : List Tok) (tr : Bool) :
    (write_features (if cur.isEmpty then [] else [cur]) tr).map (fun l => l == "") =
      List.replicate cur.length false := by
  cases cur with
  | nil => simp [write_features]
  | cons t rest =>
    simp only [List.isEmpty_cons, Bool.false_eq_true, if_neg, ite_false, write_features,
      List.flatMap_cons, List.flatMap_nil, List.append_nil]
    rw [List.eq_replicate_iff]
    refine ⟨by simp, ?_⟩
    intro b hb
    simp only [List.map_map, List.mem_map] at hb
    obtain ⟨j, _, hj⟩ := hb
    rw [← hj]
    exact featLine_ne_empty _ _ _

/-- The serialized output's blank-line mask reproduces the input's, with
`cur.length` pending non-blank lines in front. -/
theorem write_mask (hasBio tr : Bool) :
    ∀ (lines : List String) (cur : List Tok) (sents : List (List Tok)),
      read_wsjAux hasBio lines cur = .ok sents →
      (write_features sents tr).map (fun l => l == "") =
        List.replicate cur.length false ++ lines.map (fun l => l == "") := by
  intro lines
  induction lines with
  | nil =>
    intro cur sents h
    simp only [read_wsjAux, Except.ok.injEq] at h
    subst h
    simpa using mask_flush cur tr
  | cons line rest ih =>
    intro cur sents h
    simp only [read_wsjAux] at h
    by_cases hbl : line = ""
    · rw [if_pos hbl] at h
      cases hrec : read_wsjAux hasBio rest [] with
      | error e => rw [hrec] at h; exact absurd h (by simp)
      | ok s' =>
        rw [hrec] at h
        simp only [Except.ok.injEq] at h
        subst h
        have hih := ih [] s' hrec
        simp only [List.length_nil, List.replicate_zero, List.nil_append] at hih
        subst hbl
        have hsplit : write_features ((if cur.isEmpty then [] else [cur]) ++ [] :: s') tr =
            write_features (if cur.isEmpty then [] else [cur]) tr ++
              "" :: write_features s' tr := by
          simp [write_features, List.flatMap_append]
        rw [hsplit, List.map_append, List.map_cons, mask_flush cur tr, hih]
        simp
    · rw [if_neg hbl] at h
      cases hp : parseLine hasBio line with
      | error e => rw [hp] at h; exact absurd h (by simp)
      | ok t =>
        rw [hp] at h
        have hih := ih (cur ++ [t]) sents h
        rw [hih]
        have : (line == "") = false := beq_eq_false_iff_ne.mpr hbl
        simp only [List.length_append, List.length_cons, List.length_nil, List.map_cons, this]
        rw [List.replicate_succ']
        simp

/-- The first tab field of a successfully parsed line is the token's
surface form. -/
theorem parseLine_w (hasBio : Bool) (line : String) (t : Tok)
    (h : parseLine hasBio line = .ok t) : t.w = (splitTab line).getD 0 "" := by
  simp only [parseLine] at h
  by_cases hb : hasBio = true
  · simp only [hb, if_true] at h
    by_cases hlen : (splitTab line).length < 3
    · rw [if_pos hlen] at h
      exact absurd h (by simp)
    · rw [if_neg hlen] at h
      injection h with h2
      rw [← h2]
  · simp only [hb, if_false] at h
    by_cases hlen : (splitTab line).length < 2
    · rw [if_pos hlen] at h
      exact absurd h (by simp)
    · rw [if_neg hlen] at h
      injection h with h2
      rw [← h2]

/-- The tokens of the parsed corpus, flattened in order, carry exactly
the first tab fields of the non-blank input lines (after `cur`). -/
theorem read_words (hasBio : Bool) :
    ∀ (lines : List String) (cur : List Tok) (sents : List (List Tok)),
      read_wsjAux hasBio lines cur = .ok sents →
      (sents.flatMap id).map Tok.w =
        cur.map Tok.w ++
          (lines.filter (fun l => !(l == ""))).map (fun l => (splitTab l).getD 0 "") := by
  intro lines
  induction lines with
  | nil =>
    intro cur sents h
    simp only [read_wsjAux, Except.ok.injEq] at h
    subst h
    cases cur <;> simp
  | cons line rest ih =>
    intro cur sents h
    simp only [read_wsjAux] at h
    by_cases hbl : line = ""
    · rw [if_pos hbl] at h
      cases hrec : read_wsjAux hasBio rest [] with
      | error e => rw [hrec] at h; exact absurd h (by simp)
      | ok s' =>
        rw [hrec] at h
        simp only [Except.ok.injEq] at h
        subst h
        have hih := ih [] s' hrec
        simp only [List.map_nil, List.nil_append] at hih
        subst hbl
        have hsplit : (((if cur.isEmpty then [] else [cur]) ++ [] :: s').flatMap id) =
            cur ++ s'.flatMap id := by
          cases cur <;> simp
        rw [hsplit, List.map_append, hih, List.filter_cons]
        simp
    · rw [if_neg hbl] at h
      cases hp : parseLine hasBio line with
      | error e => rw [hp] at h; exact absurd h (by simp)
      | ok t =>
        rw [hp] at h
        have hih := ih (cur ++ [t]) sents h
        rw [hih, List.filter_cons, if_pos (by simp [hbl]), List.map_cons,
          List.map_append]
        simp [parseLine_w hasBio line t hp]

/-- C1: for every corpus `read_wsj` accepts, serializing with
`write_features` (a) yields exactly as many lines as the input, (b)
reproduces the input's blank/non-blank pattern position by position —
so leading, trailing and consecutive blank separators all survive —
(c) carries the tokens in the original order (the flattened sentences'
words are the first fields of the non-blank input lines, in order), and
(d) each token's output line is non-blank, starting with the token's own
surface form. -/
theorem c1_round_trip (hasBio isTraining : Bool) (lines : List String)
    (sents : List (List Tok)) (h : read_wsj hasBio lines = .ok sents) :
    (write_features sents isTraining).length = lines.length ∧
    (write_features sents isTraining).map (fun l => l == "") =
      lines.map (fun l => l == "") ∧
    (sents.flatMap id).map Tok.w =
      (lines.filter (fun l => !(l == ""))).map (fun l => (splitTab l).getD 0 "") ∧
    ∀ sent ∈ sents, ∀ i < sent.length,
      ∃ rest, featLine sent i isTraining = (sent.getD i defaultTok).w ++ "\t" ++ rest := by
  have hmask := write_mask hasBio isTraining lines [] sents h
  simp only [List.length_nil, List.replicate_zero, List.nil_append] at hmask
  have hwords := read_words hasBio lines [] sents h
  simp only [List.map_nil, List.nil_append] at hwords
  refine ⟨?_, hmask, hwords, fun sent _ i _ => featLine_head sent i isTraining⟩
  have := congrArg List.length hmask
  simpa using this

/-- The concrete 4-line training corpus used to witness `c1_round_trip`:
two tokens, one blank separator, one token. -/
def wsjLinesEx : List String := ["The\tDT\tB-NP", "dog\tNN\tI-NP", "", "ran\tVB\tO"]

/-- What `read_wsj` produces on `wsjLinesEx`. -/
def wsjSentsEx : List (List Tok) :=
  [[⟨"The", "DT", some "B-NP"⟩, ⟨"dog", "NN", some "I-NP"⟩], [],
   [⟨"ran", "VB", some "O"⟩]]

/-- Witness for `c1_round_trip` on the concrete corpus `wsjLinesEx`. -/
theorem c1_round_trip_witness :
    (write_features wsjSentsEx true).length = wsjLinesEx.length ∧
    (write_features wsjSentsEx true).map (fun l => l == "") =
      wsjLinesEx.map (fun l => l == "") ∧
    (wsjSentsEx.flatMap id).map Tok.w =
      (wsjLinesEx.filter (fun l => !(l == ""))).map (fun l => (splitTab l).getD 0 "") ∧
    ∃ rest, featLine (wsjSentsEx.getD 0 []) 0 true =
      ((wsjSentsEx.getD 0 []).getD 0 defaultTok).w ++ "\t" ++ rest := by
  have H := c1_round_trip true true wsjLinesEx wsjSentsEx rfl
  exact ⟨H.1, H.2.1, H.2.2.1,
    H.2.2.2 (wsjSentsEx.getD 0 []) (by simp [wsjSentsEx]) 0 (by simp [wsjSentsEx])⟩

/-! ### C4: determinism and gold-label noninterference of `token_feats` -/

theorem map_getD (f : Tok → String × String) (l : List Tok) (d : Tok) :
    ∀ j : Nat, (l.map f).getD j (f d) = f (l.getD j d) := by
  induction l with
  | nil => intro j; simp
  | cons a tl ih => intro j; cases j <;> simp [ih]

theorem getD_view {s t : List Tok}
    (h : s.map viewWP = t.map viewWP) (j : Nat) :
    viewWP (s.getD j defaultTok) = viewWP (t.getD j defaultTok) := by
  have := congrArg (fun l => l.getD j (viewWP defaultTok)) h
  simpa [map_getD] using this

theorem length_eq_of_view {s t : List Tok}
    (h : s.map viewWP = t.map viewWP) : s.length = t.length := by
  simpa using congrArg List.length h

theorem safe_tok_view {s t : List Tok}
    (h : s.map viewWP = t.map viewWP) (k : Int) :
    (safe_tok s k).map viewWP = (safe_tok t k).map viewWP := by
  simp only [safe_tok, length_eq_of_view h]
  split
  · simp only [Option.map_some']
    exact congrArg some (getD_view h _)
  · rfl

theorem quantScan_view {s t : List Tok}
    (h : s.map viewWP = t.map viewWP) (i : Nat) : quantScan s i = quantScan t i := by
  have hpos : ∀ j, (s.getD j defaultTok).pos = (t.getD j defaultTok).pos :=
    fun j => congrArg Prod.snd (getD_view h j)
  simp only [quantScan, hpos]

theorem commaScan_view {s t : List Tok}
    (h : s.map viewWP = t.map viewWP) (i : Nat) : commaScan s i = commaScan t i := by
  have hw : ∀ j, (s.getD j defaultTok).w = (t.getD j defaultTok).w :=
    fun j => congrArg Prod.fst (getD_view h j)
  simp only [commaScan, hw]

theorem nnpWindowCount_view {s t : List Tok}
    (h : s.map viewWP = t.map viewWP) (i : Nat) :
    nnpWindowCount s i = nnpWindowCount t i := by
  have hpos : ∀ j, (s.getD j defaultTok).pos = (t.getD j defaultTok).pos :=
    fun j => congrArg Prod.snd (getD_view h j)
  simp only [nnpWindowCount, hpos, length_eq_of_view h]

/-- C4: `token_feats` reads only the surface form and POS tag of each
token — two sentences that agree componentwise on `(word, pos)` but
carry arbitrary (possibly different) gold BIO labels produce identical
Feature Sets at every index — and the previous-label slot is the
constant marker feature `"PrevBIO=@@"`.  Determinism is immediate since
`token_feats` is a pure function of `(sentence, index, flag)`. -/
theorem c4_gold_noninterference (s t : List Tok)
    (h : s.map viewWP = t.map viewWP) (i : Nat) (b : Bool) :
    token_feats s i b = token_feats t i b ∧
    "PrevBIO=@@" ∈ token_feats s i true := by
  constructor
  · simp only [token_feats]
    rw [show wv s i = wv t i from congrArg Prod.fst (getD_view h i),
      show posv s i = posv t i from congrArg Prod.snd (getD_view h i),
      show wlv s i = wlv t i from
        congrArg lowerStr (congrArg Prod.fst (getD_view h i)),
      show p1v s i = p1v t i from safe_tok_view h _,
      show p2v s i = p2v t i from safe_tok_view h _,
      show n1v s i = n1v t i from safe_tok_view h _,
      show n2v s i = n2v t i from safe_tok_view h _,
      quantScan_view h i, commaScan_view h i, nnpWindowCount_view h i]
  · simp [token_feats, prevBioFeats]

/-- Witness for `c4_gold_noninterference`: two one-token sentences with
the same `(word, pos)` but different gold labels extract identical
features containing the constant marker. -/
theorem c4_gold_noninterference_witness :
    token_feats [⟨"the", "DT", some "B-NP"⟩] 0 true =
      token_feats [⟨"the", "DT", some "O"⟩] 0 true ∧
    "PrevBIO=@@" ∈ token_feats [⟨"the", "DT", some "B-NP"⟩] 0 true :=
  c4_gold_noninterference [⟨"the", "DT", some "B-NP"⟩] [⟨"the", "DT", some "O"⟩]
    (by decide) 0 true

/-! ### Feature-shape lemmas

Every feature `token_feats` emits is either an `f"name={value}"` string
(which contains `'='`), one of the four boundary markers, one of the two
CC_F3 level flags, or one of a fixed list of bare flag names.  These
lemmas drive the boundary-marker and CC_F3 membership characterizations. -/

/-- The bare flag features outside the boundary and CC_F3 families. -/
def flagUniverse : List String :=
  ["after_open_quote", "quote_before_nn", "after_that_comp", "coord_after_punct",
   "nnp_and_nnp", "adj_coord_before_n", "quant_in_prev3", "noun_after_cc_at_boundary",
   "list_coord_after_comma", "noun_after_cc", "comma_in_nnp_list", "comma_appositive",
   "prev_is_symbol", "is_determiner", "jj_before_noun", "more_most_before_np"]

theorem mem_data_mkFeat (n v : String) : '=' ∈ (mkFeat n v).data := by
  simp [mkFeat, String.data_append]

theorem baseFeats_shape (w pos wl : String) :
    ∀ x ∈ baseFeats w pos wl, '=' ∈ x.data := by
  unfold baseFeats
  simp [List.forall_mem_cons, mem_data_mkFeat]

theorem neighborFeats_shape (p1 n1 : Option (String × String)) :
    ∀ x ∈ neighborFeats p1 n1, '=' ∈ x.data := by
  unfold neighborFeats
  rcases p1 with _ | ⟨pw, pp⟩ <;> rcases n1 with _ | ⟨nw, np⟩ <;>
    simp [List.forall_mem_append, List.forall_mem_cons, mem_data_mkFeat]

theorem windowFeats_shape (p2 n2 : Option (String × String)) :
    ∀ x ∈ windowFeats p2 n2, '=' ∈ x.data := by
  unfold windowFeats
  rcases p2 with _ | ⟨p2w, p2p⟩ <;> rcases n2 with _ | ⟨n2w, n2p⟩ <;>
    simp [List.forall_mem_append, List.forall_mem_cons, mem_data_mkFeat]

theorem ngramFeats_shape (pos : String) (p1 p2 n1 n2 : Option (String × String)) :
    ∀ x ∈ ngramFeats pos p1 p2 n1 n2, '=' ∈ x.data := by
  unfold ngramFeats
  rcases p1 with _ | ⟨pw, pp⟩ <;> rcases p2 with _ | ⟨p2w, p2p⟩ <;>
    rcases n1 with _ | ⟨nw, np⟩ <;> rcases n2 with _ | ⟨n2w, n2p⟩ <;>
    simp [List.forall_mem_append, List.forall_mem_cons, mem_data_mkFeat]

theorem pnRunFeats_shape (pos : String) (p1 n1 : Option (String × String)) :
    ∀ x ∈ pnRunFeats pos p1 n1, '=' ∈ x.data := by
  intro x hx
  unfold pnRunFeats at hx
  rcases p1 with _ | ⟨pw, pp⟩ <;> rcases n1 with _ | ⟨nw, np⟩ <;>
    split at hx <;> simp at hx <;> (obtain ⟨-, rfl⟩ := hx; decide)

theorem prevBioFeats_shape (ipb : Bool) (pos : String) (p1 : Option (String × String)) :
    ∀ x ∈ prevBioFeats ipb pos p1, '=' ∈ x.data := by
  unfold prevBioFeats
  rcases p1 with _ | ⟨pw, pp⟩ <;> split <;>
    simp [List.forall_mem_append, List.forall_mem_cons, mem_data_mkFeat]

theorem boundaryFeats_shape (p1 p2 n1 n2 : Option (String × String)) :
    ∀ x ∈ boundaryFeats p1 p2 n1 n2, x ∈ (["BOS", "BOS2", "EOS", "EOS2"] : List String) := by
  unfold boundaryFeats
  rcases p1 with _ | q1 <;> rcases p2 with _ | q2 <;> rcases n1 with _ | q3 <;>
    rcases n2 with _ | q4 <;> simp

theorem quoteFeats_shape (pos : String) (p1 n1 : Option (String × String)) :
    ∀ x ∈ quoteFeats pos p1 n1, x ∈ flagUniverse := by
  unfold quoteFeats
  rcases p1 with _ | ⟨pw, pp⟩ <;> rcases n1 with _ | ⟨nw, np⟩ <;>
    (repeat' split) <;> simp [flagUniverse]

theorem thatCompFeats_shape (p1 : Option (String × String)) :
    ∀ x ∈ thatCompFeats p1, x ∈ flagUniverse := by
  unfold thatCompFeats
  rcases p1 with _ | ⟨pw, pp⟩ <;> (repeat' split) <;> simp [flagUniverse]

theorem coordPunctFeats_shape (wl : String) (p1 : Option (String × String)) :
    ∀ x ∈ coordPunctFeats wl p1, x ∈ flagUniverse := by
  unfold coordPunctFeats
  rcases p1 with _ | ⟨pw, pp⟩ <;> (repeat' split) <;> simp [flagUniverse]

theorem nnpAndNnpFeats_shape (p1 n1 : Option (String × String)) :
    ∀ x ∈ nnpAndNnpFeats p1 n1, x ∈ flagUniverse := by
  unfold nnpAndNnpFeats
  rcases p1 with _ | ⟨pw, pp⟩ <;> rcases n1 with _ | ⟨nw, np⟩ <;>
    (repeat' split) <;> simp [flagUniverse]

theorem adjCoordFeats_shape (p1 n1 n2 : Option (String × String)) :
    ∀ x ∈ adjCoordFeats p1 n1 n2, x ∈ flagUniverse := by
  unfold adjCoordFeats
  rcases p1 with _ | ⟨pw, pp⟩ <;> rcases n1 with _ | ⟨nw, np⟩ <;>
    rcases n2 with _ | ⟨n2w, n2p⟩ <;> (repeat' split) <;> simp [flagUniverse]

theorem quantFeats_shape (hq : Bool) : ∀ x ∈ quantFeats hq, x ∈ flagUniverse := by
  unfold quantFeats
  split <;> simp [flagUniverse]

theorem ccBoundaryFeats_shape (pos : String) (p1 n1 : Option (String × String)) :
    ∀ x ∈ ccBoundaryFeats pos p1 n1, x ∈ flagUniverse := by
  unfold ccBoundaryFeats
  rcases p1 with _ | ⟨pw, pp⟩ <;> rcases n1 with _ | ⟨nw, np⟩ <;>
    (repeat' split) <;> simp [flagUniverse]

theorem listCoordFeats_shape (pos : String) (p1 : Option (String × String)) (hc : Bool) :
    ∀ x ∈ listCoordFeats pos p1 hc, x ∈ flagUniverse := by
  unfold listCoordFeats
  rcases p1 with _ | ⟨pw, pp⟩ <;> (repeat' split) <;> simp [flagUniverse]

theorem ccLevelFeats_shape (wl : String) (p1 n1 n2 : Option (String × String)) :
    ∀ x ∈ ccLevelFeats wl p1 n1 n2,
      x ∈ (["cc_phrase_level", "cc_sentence_level"] : List String) := by
  unfold ccLevelFeats
  rcases p1 with _ | ⟨pw, pp⟩ <;> rcases n1 with _ | ⟨nw, np⟩ <;>
    rcases n2 with _ | ⟨n2w, n2p⟩ <;> (repeat' split) <;> simp

theorem nounAfterCcFeats_shape (pos : String) (p1 : Option (String × String)) :
    ∀ x ∈ nounAfterCcFeats pos p1, x ∈ flagUniverse := by
  unfold nounAfterCcFeats
  rcases p1 with _ | ⟨pw, pp⟩ <;> (repeat' split) <;> simp [flagUniverse]

theorem commaNnpFeats_shape (pos : String) (p1 n1 : Option (String × String)) (nc : Nat) :
    ∀ x ∈ commaNnpFeats pos p1 n1 nc, x ∈ flagUniverse := by
  unfold commaNnpFeats
  rcases p1 with _ | ⟨pw, pp⟩ <;> rcases n1 with _ | ⟨nw, np⟩ <;>
    (repeat' split) <;> simp [flagUniverse]

theorem symbolFeats_shape (p1 : Option (String × String)) :
    ∀ x ∈ symbolFeats p1, x ∈ flagUniverse := by
  unfold symbolFeats
  rcases p1 with _ | ⟨pw, pp⟩ <;> (repeat' split) <;> simp [flagUniverse]

theorem determinerFeats_shape (pos : String) :
    ∀ x ∈ determinerFeats pos, x ∈ flagUniverse := by
  unfold determinerFeats
  split <;> simp [flagUniverse]

theorem jjBeforeNounFeats_shape (pos : String) (n1 : Option (String × String)) :
    ∀ x ∈ jjBeforeNounFeats pos n1, x ∈ flagUniverse := by
  unfold jjBeforeNounFeats
  rcases n1 with _ | ⟨nw, np⟩ <;> (repeat' split) <;> simp [flagUniverse]

theorem moreMostFeats_shape (wl pos : String) (n1 : Option (String × String)) :
    ∀ x ∈ moreMostFeats wl pos n1, x ∈ flagUniverse := by
  unfold moreMostFeats
  rcases n1 with _ | ⟨nw, np⟩ <;> (repeat' split) <;> simp [flagUniverse]

/-- Every feature emitted by `token_feats` contains `'='`, or is a
boundary marker, a CC_F3 level flag, or a bare flag from
`flagUniverse`. -/
theorem token_feats_mem_cases (s : List Tok) (i : Nat) (b : Bool) (x : String)
    (h : x ∈ token_feats s i b) :
    '=' ∈ x.data ∨
    x ∈ boundaryFeats (p1v s i) (p2v s i) (n1v s i) (n2v s i) ∨
    x ∈ ccLevelFeats (wlv s i) (p1v s i) (n1v s i) (n2v s i) ∨
    x ∈ flagUniverse := by
  simp only [token_feats, List.mem_append, or_assoc] at h
  rcases h with h|h|h|h|h|h|h|h|h|h|h|h|h|h|h|h|h|h|h|h|h|h
  · exact Or.inl (baseFeats_shape _ _ _ x h)
  · exact Or.inr (Or.inl h)
  · exact Or.inr (Or.inr (Or.inr (quoteFeats_shape _ _ _ x h)))
  · exact Or.inl (neighborFeats_shape _ _ x h)
  · exact Or.inl (windowFeats_shape _ _ x h)
  · exact Or.inl (ngramFeats_shape _ _ _ _ _ x h)
  · exact Or.inl (pnRunFeats_shape _ _ _ x h)
  · exact Or.inl (prevBioFeats_shape _ _ _ x h)
  · exact Or.inr (Or.inr (Or.inr (thatCompFeats_shape _ x h)))
  · exact Or.inr (Or.inr (Or.inr (coordPunctFeats_shape _ _ x h)))
  · exact Or.inr (Or.inr (Or.inr (nnpAndNnpFeats_shape _ _ x h)))
  · exact Or.inr (Or.inr (Or.inr (adjCoordFeats_shape _ _ _ x h)))
  · exact Or.inr (Or.inr (Or.inr (quantFeats_shape _ x h)))
  · exact Or.inr (Or.inr (Or.inr (ccBoundaryFeats_shape _ _ _ x h)))
  · exact Or.inr (Or.inr (Or.inr (listCoordFeats_shape _ _ _ x h)))
  · exact Or.inr (Or.inr (Or.inl h))
  · exact Or.inr (Or.inr (Or.inr (nounAfterCcFeats_shape _ _ x h)))
  · exact Or.inr (Or.inr (Or.inr (commaNnpFeats_shape _ _ _ _ x h)))
  · exact Or.inr (Or.inr (Or.inr (symbolFeats_shape _ x h)))
  · exact Or.inr (Or.inr (Or.inr (determinerFeats_shape _ x h)))
  · exact Or.inr (Or.inr (Or.inr (jjBeforeNounFeats_shape _ _ x h)))
  · exact Or.inr (Or.inr (Or.inr (moreMostFeats_shape _ _ _ x h)))

/-! ### C6: boundary safety and exact boundary markers -/

theorem bos_mem_boundary (p1 p2 n1 n2 : Option (String × String)) :
    "BOS" ∈ boundaryFeats p1 p2 n1 n2 ↔ p1 = none := by
  rcases p1 with _ | q1 <;> rcases p2 with _ | q2 <;> rcases n1 with _ | q3 <;>
    rcases n2 with _ | q4 <;> simp [boundaryFeats]

theorem bos2_mem_boundary (p1 p2 n1 n2 : Option (String × String)) :
    "BOS2" ∈ boundaryFeats p1 p2 n1 n2 ↔ p2 = none := by
  rcases p1 with _ | q1 <;> rcases p2 with _ | q2 <;> rcases n1 with _ | q3 <;>
    rcases n2 with _ | q4 <;> simp [boundaryFeats]

theorem eos_mem_boundary (p1 p2 n1 n2 : Option (String × String)) :
    "EOS" ∈ boundaryFeats p1 p2 n1 n2 ↔ n1 = none := by
  rcases p1 with _ | q1 <;> rcases p2 with _ | q2 <;> rcases n1 with _ | q3 <;>
    rcases n2 with _ | q4 <;> simp [boundaryFeats]

theorem eos2_mem_boundary (p1 p2 n1 n2 : Option (String × String)) :
    "EOS2" ∈ boundaryFeats p1 p2 n1 n2 ↔ n2 = none := by
  rcases p1 with _ | q1 <;> rcases p2 with _ | q2 <;> rcases n1 with _ | q3 <;>
    rcases n2 with _ | q4 <;> simp [boundaryFeats]

theorem p1v_none_iff (s : List Tok) (i : Nat) (hi : i < s.length) :
    p1v s i = none ↔ i = 0 := by
  unfold p1v safe_tok
  by_cases hc : 0 ≤ (i : Int) - 1 ∧ (i : Int) - 1 < (s.length : Int)
  · rw [if_pos hc]
    simp only [Option.map_some']
    constructor
    · intro hcon; exact absurd hcon (by simp)
    · intro h0; omega
  · rw [if_neg hc]
    simp only [Option.map_none']
    constructor
    · intro _; omega
    · intro _; trivial

theorem p2v_none_iff (s : List Tok) (i : Nat) (hi : i < s.length) :
    p2v s i = none ↔ i ≤ 1 := by
  unfold p2v safe_tok
  by_cases hc : 0 ≤ (i : Int) - 2 ∧ (i : Int) - 2 < (s.length : Int)
  · rw [if_pos hc]
    simp only [Option.map_some']
    constructor
    · intro hcon; exact absurd hcon (by simp)
    · intro h0; omega
  · rw [if_neg hc]
    simp only [Option.map_none']
    constructor
    · intro _; omega
    · intro _; trivial

theorem n1v_none_iff (s : List Tok) (i : Nat) :
    n1v s i = none ↔ s.length ≤ i + 1 := by
  unfold n1v safe_tok
  by_cases hc : 0 ≤ (i : Int) + 1 ∧ (i : Int) + 1 < (s.length : Int)
  · rw [if_pos hc]
    simp only [Option.map_some']
    constructor
    · intro hcon; exact absurd hcon (by simp)
    · intro h0; omega
  · rw [if_neg hc]
    simp only [Option.map_none']
    constructor
    · intro _; omega
    · intro _; trivial

theorem n2v_none_iff (s : List Tok) (i : Nat) :
    n2v s i = none ↔ s.length ≤ i + 2 := by
  unfold n2v safe_tok
  by_cases hc : 0 ≤ (i : Int) + 2 ∧ (i : Int) + 2 < (s.length : Int)
  · rw [if_pos hc]
    simp only [Option.map_some']
    constructor
    · intro hcon; exact absurd hcon (by simp)
    · intro h0; omega
  · rw [if_neg hc]
    simp only [Option.map_none']
    constructor
    · intro _; omega
    · intro _; trivial

/-- Membership of a boundary marker in the full Feature Set reduces to
membership in the boundary block. -/
theorem marker_mem_token_feats (s : List Tok) (i : Nat) (b : Bool) (x : String)
    (hx : x ∈ (["BOS", "BOS2", "EOS", "EOS2"] : List String)) :
    x ∈ token_feats s i b ↔
      x ∈ boundaryFeats (p1v s i) (p2v s i) (n1v s i) (n2v s i) := by
  simp only [List.mem_cons, List.not_mem_nil, or_false] at hx
  constructor
  · intro h
    rcases token_feats_mem_cases s i b x h with h1 | h2 | h3 | h4
    · rcases hx with rfl | rfl | rfl | rfl <;> exact absurd h1 (by decide)
    · exact h2
    · have := ccLevelFeats_shape _ _ _ _ x h3
      rcases hx with rfl | rfl | rfl | rfl <;> exact absurd this (by decide)
    · rcases hx with rfl | rfl | rfl | rfl <;> exact absurd h4 (by decide)
  · intro h
    simp only [token_feats, List.mem_append, or_assoc]
    exact Or.inr (Or.inl h)

theorem get?_eq_getD_of_lt (s : List Tok) (j : Nat) (h : j < s.length) :
    s.get? j = some (s.getD j defaultTok) := by
  induction s generalizing j with
  | nil => simp at h
  | cons a tl ih =>
    cases j with
    | zero => rfl
    | succ j' => exact ih j' (by simpa using h)

theorem mapM_get?_eq (s : List Tok) :
    ∀ js : List Nat, (∀ j ∈ js, j < s.length) →
      js.mapM (fun j => s.get? j) = some (js.map (fun j => s.getD j defaultTok)) := by
  intro js
  induction js with
  | nil => intro _; rfl
  | cons j js ih =>
    intro h
    rw [List.mapM_cons, get?_eq_getD_of_lt s j (h j (by simp)),
      ih (fun j' hj' => h j' (List.mem_cons_of_mem _ hj'))]
    rfl

theorem mapM_get?_pair_eq (s : List Tok) :
    ∀ js : List Nat, (∀ j ∈ js, j < s.length) →
      js.mapM (fun j => (s.get? j).map (fun t => (j, t))) =
        some (js.map (fun j => (j, s.getD j defaultTok))) := by
  intro js
  induction js with
  | nil => intro _; rfl
  | cons j js ih =>
    intro h
    rw [List.mapM_cons, get?_eq_getD_of_lt s j (h j (by simp)),
      ih (fun j' hj' => h j' (List.mem_cons_of_mem _ hj'))]
    rfl

theorem any_map_getD (s : List Tok) (p : Tok → Bool) (l : List Nat) :
    ((l.map (fun j => s.getD j defaultTok)).any p) =
      l.any (fun j => p (s.getD j defaultTok)) := by
  induction l <;> simp_all

theorem filter_map_pair (f : Nat → Nat × Tok) (p : Nat × Tok → Bool) (l : List Nat) :
    (l.map f).filter p = (l.filter (fun j => p (f j))).map f := by
  induction l with
  | nil => rfl
  | cons a tl ih =>
    by_cases hp : p (f a) <;> simp [List.filter_cons, hp, ih]

theorem quantScanChecked_eq (s : List Tok) (i : Nat) (hi : i < s.length) :
    quantScanChecked s i = some (quantScan s i) := by
  unfold quantScanChecked quantScan
  rw [mapM_get?_eq s _ (by
    intro j hj
    have := List.mem_range'_1.mp hj
    omega)]
  simp only [Option.map_some', Option.some.injEq]
  rw [any_map_getD]

theorem commaScanChecked_eq (s : List Tok) (i : Nat) (hi : i < s.length) :
    commaScanChecked s i = some (commaScan s i) := by
  unfold commaScanChecked commaScan
  rw [mapM_get?_eq s _ (by
    intro j hj
    have := List.mem_range'_1.mp hj
    omega)]
  simp only [Option.map_some', Option.some.injEq]
  rw [any_map_getD]

theorem nnpWindowCountChecked_eq (s : List Tok) (i : Nat) (hi : i < s.length) :
    nnpWindowCountChecked s i = some (nnpWindowCount s i) := by
  unfold nnpWindowCountChecked nnpWindowCount
  rw [mapM_get?_pair_eq s _ (by
    intro j hj
    have := List.mem_range'_1.mp hj
    omega)]
  simp only [Option.map_some', Option.some.injEq]
  rw [filter_map_pair, List.length_map]

theorem token_featsChecked_eq (s : List Tok) (i : Nat) (b : Bool) (hi : i < s.length) :
    token_featsChecked s i b = some (token_feats s i b) := by
  unfold token_featsChecked
  rw [get?_eq_getD_of_lt s i hi, quantScanChecked_eq s i hi, commaScanChecked_eq s i hi,
    nnpWindowCountChecked_eq s i hi]
  simp [token_feats, wv, posv, wlv]

/-- C6: for every in-range index of a sentence, `token_feats` performs
only in-range direct accesses (the bounds-checked variant, in which every
direct subscript is guarded, succeeds and agrees with it — the windowed
context lookups already go through `safe_tok`, which returns the
boundary value `none` at index `-1` and past the end), and the boundary
markers are exact: `BOS` iff `i = 0`, `BOS2` iff `i ≤ 1`, `EOS` iff
`i = length - 1`, `EOS2` iff `i ≥ length - 2`. -/
theorem c6_boundary_safety (s : List Tok) (i : Nat) (b : Bool) (hi : i < s.length) :
    token_featsChecked s i b = some (token_feats s i b) ∧
    ("BOS" ∈ token_feats s i b ↔ i = 0) ∧
    ("BOS2" ∈ token_feats s i b ↔ i ≤ 1) ∧
    ("EOS" ∈ token_feats s i b ↔ i = s.length - 1) ∧
    ("EOS2" ∈ token_feats s i b ↔ s.length - 2 ≤ i) := by
  refine ⟨token_featsChecked_eq s i b hi, ?_, ?_, ?_, ?_⟩
  · rw [marker_mem_token_feats s i b "BOS" (by decide), bos_mem_boundary,
      p1v_none_iff s i hi]
  · rw [marker_mem_token_feats s i b "BOS2" (by decide), bos2_mem_boundary,
      p2v_none_iff s i hi]
  · rw [marker_mem_token_feats s i b "EOS" (by decide), eos_mem_boundary,
      n1v_none_iff s i]
    omega
  · rw [marker_mem_token_feats s i b "EOS2" (by decide), eos2_mem_boundary,
      n2v_none_iff s i]
    omega

/-- Witness for `c6_boundary_safety` at the middle token of a concrete
3-token sentence. -/
theorem c6_boundary_safety_witness :
    token_featsChecked [⟨"a", "DT", none⟩, ⟨"b", "NN", none⟩, ⟨"c", "VB", none⟩] 1 true =
      some (token_feats [⟨"a", "DT", none⟩, ⟨"b", "NN", none⟩, ⟨"c", "VB", none⟩] 1 true) ∧
    ("BOS" ∈ token_feats [⟨"a", "DT", none⟩, ⟨"b", "NN", none⟩, ⟨"c", "VB", none⟩] 1 true ↔
      1 = 0) ∧
    ("BOS2" ∈ token_feats [⟨"a", "DT", none⟩, ⟨"b", "NN", none⟩, ⟨"c", "VB", none⟩] 1 true ↔
      1 ≤ 1) ∧
    ("EOS" ∈ token_feats [⟨"a", "DT", none⟩, ⟨"b", "NN", none⟩, ⟨"c", "VB", none⟩] 1 true ↔
      1 = ([⟨"a", "DT", none⟩, ⟨"b", "NN", none⟩, ⟨"c", "VB", none⟩] : List Tok).length - 1) ∧
    ("EOS2" ∈ token_feats [⟨"a", "DT", none⟩, ⟨"b", "NN", none⟩, ⟨"c", "VB", none⟩] 1 true ↔
      ([⟨"a", "DT", none⟩, ⟨"b", "NN", none⟩, ⟨"c", "VB", none⟩] : List Tok).length - 2 ≤ 1) :=
  c6_boundary_safety [⟨"a", "DT", none⟩, ⟨"b", "NN", none⟩, ⟨"c", "VB", none⟩] 1 true
    (by decide)

/-! ### C9: phrase-level vs sentence-level conjunction classification -/

/-- Membership of a CC_F3 level flag in the full Feature Set reduces to
membership in the CC_F3 block. -/
theorem ccflag_mem_token_feats (s : List Tok) (i : Nat) (b : Bool) (x : String)
    (hx : x ∈ (["cc_phrase_level", "cc_sentence_level"] : List String)) :
    x ∈ token_feats s i b ↔
      x ∈ ccLevelFeats (wlv s i) (p1v s i) (n1v s i) (n2v s i) := by
  simp only [List.mem_cons, List.not_mem_nil, or_false] at hx
  constructor
  · intro h
    rcases token_feats_mem_cases s i b x h with h1 | h2 | h3 | h4
    · rcases hx with rfl | rfl <;> exact absurd h1 (by decide)
    · have := boundaryFeats_shape _ _ _ _ x h2
      rcases hx with rfl | rfl <;> exact absurd this (by decide)
    · exact h3
    · rcases hx with rfl | rfl <;> exact absurd h4 (by decide)
  · intro h
    simp only [token_feats, List.mem_append, or_assoc]
    exact Or.inr (Or.inr (Or.inr (Or.inr (Or.inr (Or.inr (Or.inr (Or.inr (Or.inr
      (Or.inr (Or.inr (Or.inr (Or.inr (Or.inr (Or.inr (Or.inl h)))))))))))))))

/-- C9 (amended): for a token whose lowercased form is `and`/`or`/`&`,
whose previous neighbor exists with a tag in `{NN,NNS,NNP,NNPS,JJ,CD}`
and whose next neighbor exists with a tag in `{NN,NNS,NNP,NNPS}` (the
next neighbor must be strictly nominal — adjectival or numeral tags do
not qualify), the Feature Set contains `cc_phrase_level` exactly when the
token two positions ahead exists with a `{NN,NNS,NNP,NNPS}` tag, contains
`cc_sentence_level` exactly otherwise, and never contains both. -/
theorem c9_cc_level_amended (s : List Tok) (i : Nat) (b : Bool) (pw pp nw np : String)
    (hwl : wlv s i ∈ (["and", "or", "&"] : List String))
    (hp1 : p1v s i = some (pw, pp))
    (hpp : pp ∈ (["NN", "NNS", "NNP", "NNPS", "JJ", "CD"] : List String))
    (hn1 : n1v s i = some (nw, np))
    (hnp : np ∈ (["NN", "NNS", "NNP", "NNPS"] : List String)) :
    ("cc_phrase_level" ∈ token_feats s i b ↔
      ∃ q : String × String, n2v s i = some q ∧
        q.2 ∈ (["NN", "NNS", "NNP", "NNPS"] : List String)) ∧
    ("cc_sentence_level" ∈ token_feats s i b ↔
      ¬∃ q : String × String, n2v s i = some q ∧
        q.2 ∈ (["NN", "NNS", "NNP", "NNPS"] : List String)) ∧
    ¬("cc_phrase_level" ∈ token_feats s i b ∧
      "cc_sentence_level" ∈ token_feats s i b) := by
  have hphr := ccflag_mem_token_feats s i b "cc_phrase_level" (by decide)
  have hsen := ccflag_mem_token_feats s i b "cc_sentence_level" (by decide)
  rcases hn2 : n2v s i with _ | ⟨n2w, n2p⟩
  · have hblock : ccLevelFeats (wlv s i) (p1v s i) (n1v s i) (n2v s i) =
        ["cc_sentence_level"] := by
      rw [hp1, hn1, hn2]
      unfold ccLevelFeats
      rw [if_pos hwl]
      simp [hpp, hnp]
    rw [hblock] at hphr hsen
    refine ⟨?_, ?_, ?_⟩
    · rw [hphr]
      simp [hn2]
    · rw [hsen]
      simp [hn2]
    · rintro ⟨hin, -⟩
      rw [hphr] at hin
      exact absurd hin (by decide)
  · by_cases hq : n2p ∈ (["NN", "NNS", "NNP", "NNPS"] : List String)
    · have hblock : ccLevelFeats (wlv s i) (p1v s i) (n1v s i) (n2v s i) =
          ["cc_phrase_level"] := by
        rw [hp1, hn1, hn2]
        unfold ccLevelFeats
        rw [if_pos hwl]
        simp [hpp, hnp, hq]
      rw [hblock] at hphr hsen
      refine ⟨?_, ?_, ?_⟩
      · rw [hphr]
        constructor
        · intro _
          exact ⟨(n2w, n2p), rfl, hq⟩
        · intro _
          exact List.mem_singleton.mpr rfl
      · rw [hsen]
        constructor
        · intro hin
          exact absurd hin (by decide)
        · intro hno
          exact absurd ⟨(n2w, n2p), rfl, hq⟩ hno
      · rintro ⟨-, hin⟩
        rw [hsen] at hin
        exact absurd hin (by decide)
    · have hblock : ccLevelFeats (wlv s i) (p1v s i) (n1v s i) (n2v s i) =
          ["cc_sentence_level"] := by
        rw [hp1, hn1, hn2]
        unfold ccLevelFeats
        rw [if_pos hwl]
        simp [hpp, hnp, hq]
      rw [hblock] at hphr hsen
      refine ⟨?_, ?_, ?_⟩
      · rw [hphr]
        constructor
        · intro hin
          exact absurd hin (by decide)
        · rintro ⟨q, hq2, hmem⟩
          rw [Option.some.injEq] at hq2
          subst hq2
          exact absurd hmem hq
      · rw [hsen]
        constructor
        · intro _
          rintro ⟨q, hq2, hmem⟩
          rw [Option.some.injEq] at hq2
          subst hq2
          exact absurd hmem hq
        · intro _
          exact List.mem_singleton.mpr rfl
      · rintro ⟨hin, -⟩
        rw [hphr] at hin
        exact absurd hin (by decide)

/-- Witness for `c9_cc_level_amended`: in `dogs/NNS and/CC cats/NNS`
(no token two ahead), the conjunction gets `cc_sentence_level` and not
`cc_phrase_level`. -/
theorem c9_cc_level_amended_witness :
    ("cc_phrase_level" ∈
        token_feats [⟨"dogs", "NNS", none⟩, ⟨"and", "CC", none⟩, ⟨"cats", "NNS", none⟩] 1 true ↔
      ∃ q : String × String,
        n2v [⟨"dogs", "NNS", none⟩, ⟨"and", "CC", none⟩, ⟨"cats", "NNS", none⟩] 1 = some q ∧
          q.2 ∈ (["NN", "NNS", "NNP", "NNPS"] : List String)) ∧
    ("cc_sentence_level" ∈
        token_feats [⟨"dogs", "NNS", none⟩, ⟨"and", "CC", none⟩, ⟨"cats", "NNS", none⟩] 1 true ↔
      ¬∃ q : String × String,
        n2v [⟨"dogs", "NNS", none⟩, ⟨"and", "CC", none⟩, ⟨"cats", "NNS", none⟩] 1 = some q ∧
          q.2 ∈ (["NN", "NNS", "NNP", "NNPS"] : List String)) ∧
    ¬("cc_phrase_level" ∈
        token_feats [⟨"dogs", "NNS", none⟩, ⟨"and", "CC", none⟩, ⟨"cats", "NNS", none⟩] 1 true ∧
      "cc_sentence_level" ∈
        token_feats [⟨"dogs", "NNS", none⟩, ⟨"and", "CC", none⟩, ⟨"cats", "NNS", none⟩] 1 true) :=
  c9_cc_level_amended [⟨"dogs", "NNS", none⟩, ⟨"and", "CC", none⟩, ⟨"cats", "NNS", none⟩]
    1 true "dogs" "NNS" "cats" "NNS" (by decide) (by decide) (by decide) (by decide) (by decide)

/-- C9 counterexample: in `stocks/NN and/CC cheap/JJ` the claim's
precondition holds — both neighbors exist and carry nominal or
adjectival tags — so the claim demands exactly one of the two level
features; the extractor emits neither, because CC_F3 additionally
requires the NEXT neighbor's tag to be strictly nominal
(`NN/NNS/NNP/NNPS`), which `JJ` is not. -/
theorem c9_counterexample :
    wlv [⟨"stocks", "NN", none⟩, ⟨"and", "CC", none⟩, ⟨"cheap", "JJ", none⟩] 1 = "and" ∧
    p1v [⟨"stocks", "NN", none⟩, ⟨"and", "CC", none⟩, ⟨"cheap", "JJ", none⟩] 1 =
      some ("stocks", "NN") ∧
    n1v [⟨"stocks", "NN", none⟩, ⟨"and", "CC", none⟩, ⟨"cheap", "JJ", none⟩] 1 =
      some ("cheap", "JJ") ∧
    (token_feats [⟨"stocks", "NN", none⟩, ⟨"and", "CC", none⟩, ⟨"cheap", "JJ", none⟩]
        1 true).contains "cc_phrase_level" = false ∧
    (token_feats [⟨"stocks", "NN", none⟩, ⟨"and", "CC", none⟩, ⟨"cheap", "JJ", none⟩]
        1 true).contains "cc_sentence_level" = false := by
  decide

end NgTagger
